import Mathlib

/-!
# LearnDX12, chapter 10 "BlendWaves": frame-resource ring and wave streaming

A shallow embedding of the parts of `BlendApp.cpp` that implement the ring of
frame resources (`BlendApp::Update`, `BlendApp::Draw`,
`BlendApp::BuildFrameResource`, `FrameResource::FrameResource`), the per-frame
wave upload (`BlendApp::UpdateWaves`), the index buffer and configuration of
the wave grid (`BlendApp::BuildWavesGeometry`) and the scene tables
(`BlendApp::BuildRenderItems`, `BlendApp::BuildMaterials`,
`BlendApp::BuildDescriptorHeaps`, `BlendApp::UpdateAnimate`), followed by
theorems about them.

Conventions.
* `UINT64` values (`FrameResource::Fence`, `mCurrentFence`, the completed value
  of `mFence`) are natural numbers; the only arithmetic on them, the
  pre-increment `++mCurrentFence`, is taken modulo `2 ^ 64`.
* `float` values are rationals: every statement about them is a statement over
  exact arithmetic.
* The GPU is the environment.  What the CPU code can see of it is the value
  returned by `mFence->GetCompletedValue()` and the moment at which
  `WaitForSingleObject` returns; both are inputs of the model.
* `gFrameResourcesCount`, the class `Waves`, `UploadBuffer` and
  `MathHelper::Rand` are declared in headers outside `BlendApp.cpp`; they are
  parameters of the model.  Names built with `ToStringAlign` (also declared
  outside) are represented by the number they are built from.
* `std::uint16_t` stores are taken modulo `2 ^ 16`.
-/

namespace LearnDX12

/-! ## Data model -/

/-- Modulus of `UINT64` arithmetic. -/
def UINT64_MOD : Nat := 2 ^ 64

/-- The type `DirectX::XMFLOAT3` over exact arithmetic. -/
structure XMFLOAT3 where
  x : ℚ
  y : ℚ
  z : ℚ
  deriving DecidableEq, Repr

/-- The type `DirectX::XMFLOAT2` over exact arithmetic. -/
structure XMFLOAT2 where
  x : ℚ
  y : ℚ
  deriving DecidableEq, Repr

/-- The `Vertex` written by `UpdateWaves`: `Pos`, `Normal`, `TexC`. -/
structure Vertex where
  Pos : XMFLOAT3
  Normal : XMFLOAT3
  TexC : XMFLOAT2
  deriving DecidableEq, Repr

/-- Modelled from the spec: the class `UploadBuffer<Vertex>` is declared outside
`BlendApp.cpp`.  It is the per-frame write-only data buffer of a frame
resource, an array of `elementCount` cells; a cell is `none` until `CopyData`
has written it. -/
structure UploadBuffer where
  cells : List (Option Vertex)
  deriving DecidableEq, Repr

/-- Modelled from the spec: the constructor call
`UploadBuffer<Vertex>(device, elementCount, false)` (declared outside
`BlendApp.cpp`) makes a buffer sized to `elementCount` elements. -/
def UploadBuffer.create (elementCount : Nat) : UploadBuffer :=
  { cells := List.replicate elementCount none }

/-- Modelled from the spec: the element capacity of an `UploadBuffer`. -/
def UploadBuffer.elementCount (b : UploadBuffer) : Nat := b.cells.length

/-- Modelled from the spec: the method `UploadBuffer::CopyData(elementIndex,
data)` (declared outside `BlendApp.cpp`) copies `data` into cell
`elementIndex`.  A write outside the buffer is undefined behaviour, here `none`. -/
def UploadBuffer.CopyData (b : UploadBuffer) (elementIndex : Nat) (data : Vertex) :
    Option UploadBuffer :=
  if elementIndex < b.cells.length then
    some { cells := b.cells.set elementIndex (some data) }
  else none

/-- The fields of `FrameResource` that the ring and the wave upload use:
the fence value of the last submission and the dynamic wave vertex buffer. -/
structure FrameResource where
  Fence : Nat
  WavesVB : UploadBuffer
  deriving DecidableEq, Repr

/-- The constructor `FrameResource::FrameResource(device, passCount, objectCount, materialCount,
waveVertCount)`: `Fence = 0` and `WavesVB` gets `waveVertCount` elements. -/
def FrameResource.ctor (waveVertCount : Nat) : FrameResource :=
  { Fence := 0, WavesVB := UploadBuffer.create waveVertCount }

/-- The ring state of `BlendApp`: the vector of frame resources, the index of
the current one (`mCurrFrameResource` always points at that entry once `Update`
has run) and the CPU side fence counter. -/
structure BlendApp where
  mFrameResources : List FrameResource
  mCurrFrameResourceIndex : Nat
  mCurrentFence : Nat
  deriving DecidableEq, Repr

/-- The loop of `BlendApp::BuildFrameResource`,
`for (int i = 0; i < gFrameResourcesCount; i++) mFrameResources.push_back(...)`,
by recursion on the number `gFrameResourcesCount - i` of iterations left. -/
def BuildFrameResource.loop (waveVertCount : Nat) :
    Nat → List FrameResource → List FrameResource
  | 0, mFrameResources => mFrameResources
  | left + 1, mFrameResources =>
    BuildFrameResource.loop waveVertCount left
      (mFrameResources ++ [FrameResource.ctor waveVertCount])

/-- The method `BlendApp::BuildFrameResource`, where `waveVertCount` is
`mWaves->VertexCount()`. -/
def BuildFrameResource (gFrameResourcesCount waveVertCount : Nat) : List FrameResource :=
  BuildFrameResource.loop waveVertCount gFrameResourcesCount []

/-- The application right after `Initialize`: a ring fresh from
`BuildFrameResource`, the ring index at `index0` and the fence counter at
`fence0` (both initial values are set outside `BlendApp.cpp`). -/
def BlendApp.fresh (gFrameResourcesCount waveVertCount index0 fence0 : Nat) : BlendApp :=
  { mFrameResources := BuildFrameResource gFrameResourcesCount waveVertCount
    mCurrFrameResourceIndex := index0
    mCurrentFence := fence0 }

/-! ## The ring: `Update` (acquire) and `Draw` (submit) -/

/-- The new value of `mCurrFrameResourceIndex` in `BlendApp::Update`:
`(mCurrFrameResourceIndex + 1) % gFrameResourcesCount`. -/
def nextFrameResourceIndex (gFrameResourcesCount index : Nat) : Nat :=
  (index + 1) % gFrameResourcesCount

/-- The condition of the `if` in `BlendApp::Update`:
`mCurrFrameResource->Fence && mFence->GetCompletedValue() < mCurrFrameResource->Fence`. -/
def waitCondition (Fence completedValue : Nat) : Bool :=
  (Fence != 0) && decide (completedValue < Fence)

/-- What one call of `Update` sees of the GPU fence: `seen` is the value
returned by `mFence->GetCompletedValue()`, `woken` the completed value of
`mFence` at the moment `WaitForSingleObject` returns (read only when `Update`
waits). -/
structure FenceObs where
  seen : Nat
  woken : Nat
  deriving DecidableEq, Repr

/-- The frame-resource part of `BlendApp::Update`: advance the ring index, take
the frame resource at it, and wait on its fence value if `waitCondition` holds.
The event registered by `SetEventOnCompletion(Fence, eventHandle)` is set once
the fence has reached `Fence`, so `WaitForSingleObject(eventHandle, INFINITE)`
returns only with `Fence ≤ woken`.  The result is `none` when `Update` does not
get past the wait (or indexes outside the vector); otherwise it is the new state
together with the completed value of the fence at that moment.  The rest of
`Update` does not touch the index, the fence values or the counter. -/
def BlendApp.Update (gFrameResourcesCount : Nat) (app : BlendApp) (obs : FenceObs) :
    Option (BlendApp × Nat) :=
  let index := nextFrameResourceIndex gFrameResourcesCount app.mCurrFrameResourceIndex
  match app.mFrameResources[index]? with
  | none => none
  | some mCurrFrameResource =>
    if waitCondition mCurrFrameResource.Fence obs.seen then
      if mCurrFrameResource.Fence ≤ obs.woken then
        some ({ app with mCurrFrameResourceIndex := index }, obs.woken)
      else none
    else some ({ app with mCurrFrameResourceIndex := index }, obs.seen)

/-- The last two statements of `BlendApp::Draw`:
`mCurrFrameResource->Fence = ++mCurrentFence; mCommandQueue->Signal(mFence, mCurrentFence)`.
Returns the new state and the value handed to `Signal`. -/
def BlendApp.Draw (app : BlendApp) : Option (BlendApp × Nat) :=
  let fence := (app.mCurrentFence + 1) % UINT64_MOD
  match app.mFrameResources[app.mCurrFrameResourceIndex]? with
  | none => none
  | some mCurrFrameResource =>
    some ({ app with
              mCurrentFence := fence
              mFrameResources :=
                app.mFrameResources.set app.mCurrFrameResourceIndex
                  { mCurrFrameResource with Fence := fence } }, fence)

/-- One frame of the message loop: `Update` then `Draw`.  Returns the state and
the value signalled by `Draw`. -/
def BlendApp.tick (gFrameResourcesCount : Nat) (app : BlendApp) (obs : FenceObs) :
    Option (BlendApp × Nat) :=
  match app.Update gFrameResourcesCount obs with
  | none => none
  | some (app1, _) => app1.Draw

/-- A run of frames, one per observation, collecting the signalled values in
submission order. -/
def BlendApp.run (gFrameResourcesCount : Nat) :
    BlendApp → List FenceObs → Option (BlendApp × List Nat)
  | app, [] => some (app, [])
  | app, obs :: rest =>
    match app.tick gFrameResourcesCount obs with
    | none => none
    | some (app1, fence) =>
      match BlendApp.run gFrameResourcesCount app1 rest with
      | none => none
      | some (app2, fences) => some (app2, fence :: fences)

/-- The ring indices selected by `count` consecutive executions of the index
update in `Update`, starting after `index`. -/
def selectedIndices (gFrameResourcesCount : Nat) : Nat → Nat → List Nat
  | _, 0 => []
  | index, count + 1 =>
    nextFrameResourceIndex gFrameResourcesCount index ::
      selectedIndices gFrameResourcesCount
        (nextFrameResourceIndex gFrameResourcesCount index) count

/-- The ring index after `count` consecutive executions of the index update. -/
def indexAfter (gFrameResourcesCount : Nat) : Nat → Nat → Nat
  | index, 0 => index
  | index, count + 1 =>
    indexAfter gFrameResourcesCount (nextFrameResourceIndex gFrameResourcesCount index) count

/-- The completed values of the fence seen during a run, in time order:
for each frame `seen` and then `woken`. -/
def watermarks : List FenceObs → List Nat
  | [] => []
  | obs :: rest => obs.seen :: obs.woken :: watermarks rest

/-- The values `a, l[0], l[1], ...` are non-decreasing. -/
def nonDecreasingFrom : Nat → List Nat → Bool
  | _, [] => true
  | a, b :: rest => decide (a ≤ b) && nonDecreasingFrom b rest

/-- For ring indices `index, s < N`: the number of index updates since `s` was
the current index, when the current index is `index` (that is,
`(index - s) mod N`). -/
def slotAge (N index s : Nat) : Nat :=
  if s ≤ index then index - s else index + N - s

/-- The shape of the ring `k` frames after a fresh start at counter `c0`: the
frame resource selected `a` index updates ago holds the value signalled by the
`(k - a)`-th submit if there was one and 0 otherwise, and the counter has been
incremented `k` times. -/
def RingInv (N c0 k : Nat) (app : BlendApp) : Prop :=
  app.mFrameResources.length = N ∧ app.mCurrFrameResourceIndex < N ∧
  app.mCurrentFence = (c0 + k) % UINT64_MOD ∧
  ∀ s, s < N → ∃ fr, app.mFrameResources[s]? = some fr ∧
    fr.Fence =
      if slotAge N app.mCurrFrameResourceIndex s < k then
        (c0 + (k - slotAge N app.mCurrFrameResourceIndex s)) % UINT64_MOD
      else 0

/-! ## The wave upload: `UpdateWaves` -/

/-- What `BlendApp.cpp` reads from `mWaves` (class `Waves`) during one frame:
the grid constants and, per vertex index, the position and normal of the
solution after `mWaves->Update`. -/
structure Waves where
  RowCount : Int
  ColumnCount : Int
  VertexCount : Nat
  Width : ℚ
  Depth : ℚ
  Position : Nat → XMFLOAT3
  Normal : Nat → XMFLOAT3

/-- The results of the calls of `MathHelper::Rand` (for `i` and for `j`) and
`MathHelper::RandF` made in one frame, as functions of their arguments. -/
structure RandomDraws where
  RandI : Int → Int → Int
  RandJ : Int → Int → Int
  RandF : ℚ → ℚ → ℚ

/-- The first block of `BlendApp::UpdateWaves`: when a quarter second has
passed since `t_base`, advance `t_base` by `0.25` and call
`mWaves->Disturb(i, j, r)`.  Returns the new `t_base` and the arguments of the
`Disturb` call, if one is made. -/
def UpdateWaves.disturb (mWaves : Waves) (rnd : RandomDraws) (t_base TotalTime : ℚ) :
    ℚ × Option (Int × Int × ℚ) :=
  if TotalTime - t_base ≥ 1 / 4 then
    let i := rnd.RandI 4 (mWaves.RowCount - 5)
    let j := rnd.RandJ 4 (mWaves.ColumnCount - 5)
    let r := rnd.RandF (1 / 5) (1 / 2)
    (t_base + 1 / 4, some (i, j, r))
  else (t_base, none)

/-- The body of the vertex loop of `UpdateWaves`: the vertex built for index `i`. -/
def UpdateWaves.vertex (mWaves : Waves) (i : Nat) : Vertex :=
  let Pos := mWaves.Position i
  { Pos := Pos
    Normal := mWaves.Normal i
    TexC := { x := 1 / 2 + Pos.x / mWaves.Width, y := 1 / 2 - Pos.z / mWaves.Depth } }

/-- The loop `for (int i = 0; i < mWaves->VertexCount(); ++i) { ...;
currWavesVB->CopyData(i, v); }`, by recursion on the number of iterations left;
`written` logs the element indices passed to `CopyData`, in order. -/
def UpdateWaves.loop (mWaves : Waves) :
    Nat → Nat → UploadBuffer → List Nat → Option (UploadBuffer × List Nat)
  | 0, _, currWavesVB, written => some (currWavesVB, written)
  | left + 1, i, currWavesVB, written =>
    match currWavesVB.CopyData i (UpdateWaves.vertex mWaves i) with
    | none => none
    | some buf => UpdateWaves.loop mWaves left (i + 1) buf (written ++ [i])

/-- What one call of `UpdateWaves` leaves behind. -/
structure WavesFrame where
  t_base : ℚ
  Disturb : Option (Int × Int × ℚ)
  WavesVB : UploadBuffer
  written : List Nat

/-- The method `BlendApp::UpdateWaves` on the wave buffer of the current frame resource:
the disturbance block, then the vertex loop.  `none` if a `CopyData` falls
outside the buffer. -/
def BlendApp.UpdateWaves (mWaves : Waves) (rnd : RandomDraws) (t_base TotalTime : ℚ)
    (currWavesVB : UploadBuffer) : Option WavesFrame :=
  let d := UpdateWaves.disturb mWaves rnd t_base TotalTime
  match UpdateWaves.loop mWaves mWaves.VertexCount 0 currWavesVB [] with
  | none => none
  | some (buf, written) =>
    some { t_base := d.1, Disturb := d.2, WavesVB := buf, written := written }

/-- The disturbance block over a run of frames: `t_base` and `TotalTime` are the
values before the first frame, each list entry is the time elapsed in one
frame.  Returns the final `t_base`, the final `TotalTime` and the number of
`Disturb` calls made. -/
def disturbRun (mWaves : Waves) (rnd : RandomDraws) : ℚ → ℚ → List ℚ → ℚ × ℚ × Nat
  | t_base, TotalTime, [] => (t_base, TotalTime, 0)
  | t_base, TotalTime, dt :: rest =>
    let d := UpdateWaves.disturb mWaves rnd t_base (TotalTime + dt)
    let r := disturbRun mWaves rnd d.1 (TotalTime + dt) rest
    (r.1, r.2.1, (if d.2.isSome then 1 else 0) + r.2.2)

/-- A sample value of the `Waves` interface for a grid of `rows * cols`
vertices with spatial step 1, at rest and centred at the origin; with
`rows = cols = 128` it has the dimensions passed to the constructor in
`BlendApp::BuildWavesGeometry`. -/
def sampleWaves (rows cols : Nat) : Waves :=
  { RowCount := rows
    ColumnCount := cols
    VertexCount := rows * cols
    Width := cols
    Depth := rows
    Position := fun i =>
      { x := ((i % cols : Nat) : ℚ) - ((cols : ℚ) - 1) / 2
        y := 0
        z := ((rows : ℚ) - 1) / 2 - ((i / cols : Nat) : ℚ) }
    Normal := fun _ => { x := 0, y := 1, z := 0 } }

/-- A sample random source: every call returns its lower bound. -/
def sampleDraws : RandomDraws :=
  { RandI := fun a _ => a, RandJ := fun a _ => a, RandF := fun a _ => a }

/-! ## One whole frame, as a sequence of operations -/

/-- The operations of one frame whose order matters to the ring and the wave
simulation. -/
inductive FrameEvent where
  /-- The frame-resource block of `Update`: the ring index moves to `index` and
  the fence of that frame resource is waited for. -/
  | Acquire (index : Nat)
  /-- The call `mWaves->Disturb(i, j, r)` in `UpdateWaves`. -/
  | Disturb (i j : Int) (r : ℚ)
  /-- The call `mWaves->Update(gt.DeltaTime())` in `UpdateWaves`. -/
  | WavesUpdate (dt : ℚ)
  /-- The call `currWavesVB->CopyData(i, v)` in `UpdateWaves`. -/
  | CopyData (elementIndex : Nat)
  /-- The submit at the end of `Draw`: `Fence = ++mCurrentFence` and `Signal`. -/
  | Submit (fence : Nat)
  deriving DecidableEq, Repr

/-- Whether an operation is the ring acquire. -/
def FrameEvent.isAcquire : FrameEvent → Bool
  | FrameEvent.Acquire _ => true
  | _ => false

/-- Whether an operation is the simulator update. -/
def FrameEvent.isWavesUpdate : FrameEvent → Bool
  | FrameEvent.WavesUpdate _ => true
  | _ => false

/-- The operations of one call of `UpdateWaves`, in the order of its
statements: the disturbance block (a `Disturb` call or nothing), then
`mWaves->Update(gt.DeltaTime())`, then the vertex loop. -/
def UpdateWaves.events (DeltaTime : ℚ) (res : WavesFrame) : List FrameEvent :=
  (match res.Disturb with
    | some (i, j, r) => [FrameEvent.Disturb i j r]
    | none => []) ++
  [FrameEvent.WavesUpdate DeltaTime] ++
  res.written.map FrameEvent.CopyData

/-- One frame of the message loop in full: `Update` runs its frame-resource
block and then (after `UpdateAnimate`) `UpdateWaves` on the wave buffer of the
frame resource now current; `Draw` ends with the submit.  Returns the new ring
state, the new `t_base` and the operations in the order in which they happen.
`none` if `Update` does not get past the wait or an access falls outside a
vector or buffer. -/
def BlendApp.frame (gFrameResourcesCount : Nat) (app : BlendApp) (obs : FenceObs)
    (mWaves : Waves) (rnd : RandomDraws) (t_base TotalTime DeltaTime : ℚ) :
    Option (BlendApp × ℚ × List FrameEvent) :=
  match app.Update gFrameResourcesCount obs with
  | none => none
  | some (app1, _) =>
    match app1.mFrameResources[app1.mCurrFrameResourceIndex]? with
    | none => none
    | some mCurrFrameResource =>
      match BlendApp.UpdateWaves mWaves rnd t_base TotalTime mCurrFrameResource.WavesVB with
      | none => none
      | some res =>
        let app2 : BlendApp :=
          { app1 with
            mFrameResources :=
              app1.mFrameResources.set app1.mCurrFrameResourceIndex
                { mCurrFrameResource with WavesVB := res.WavesVB } }
        match app2.Draw with
        | none => none
        | some (app3, fence) =>
          some (app3, res.t_base,
            [FrameEvent.Acquire app1.mCurrFrameResourceIndex] ++
              UpdateWaves.events DeltaTime res ++ [FrameEvent.Submit fence])


/-! ## The configuration of the wave simulator -/

/-- The arguments of the `Waves` constructor: grid size, spatial step, time
step, wave speed and damping. -/
structure WavesConfig where
  rows : Int
  cols : Int
  dx : ℚ
  dt : ℚ
  speed : ℚ
  damping : ℚ
  deriving DecidableEq, Repr

/-- The constructor call in `BlendApp::BuildWavesGeometry`:
`Waves(128, 128, 1.0f, 0.03f, 4.0f, 0.2f)`, the literals read as decimals. -/
def BuildWavesGeometry.wavesArgs : WavesConfig :=
  { rows := 128, cols := 128, dx := 1, dt := 3 / 100, speed := 4, damping := 1 / 5 }

/-- The errors of the simulator's construction named by the specification. -/
inductive ConfigError where
  | InvalidDimensions
  | Unstable
  deriving DecidableEq, Repr

/-- Modelled from the spec: the Courant stability bound `c·dt/dx ≤ 1/√2` of the
wave simulator (class `Waves`, whose code is not in `BlendApp.cpp`).  Over the
rationals the bound is tested without the square root: the Courant number is not
positive, or its square is at most `1/2`. -/
def WavesConfig.courant (cfg : WavesConfig) : Bool :=
  decide (cfg.speed * cfg.dt / cfg.dx ≤ 0 ∨ (cfg.speed * cfg.dt / cfg.dx) ^ 2 ≤ 1 / 2)

/-- Modelled from the spec: `initialize(rows, cols, dx, dt, c, damp)` of the wave
simulator (class `Waves`, whose code is not in `BlendApp.cpp`) requires
`rows, cols ≥ 5`; it fails with `ConfigError::Unstable` if the Courant bound is
violated and with `ConfigError::InvalidDimensions` if the grid is too small. -/
def WavesConfig.initialize (cfg : WavesConfig) : Except ConfigError Unit :=
  if !cfg.courant then Except.error ConfigError.Unstable
  else if cfg.rows < 5 ∨ cfg.cols < 5 then Except.error ConfigError.InvalidDimensions
  else Except.ok ()


/-! ## Scene tables: render items, materials, descriptors, animation -/

/-- The keys of `mMaterials`: `"grass"`, `"water"` and
`"bolt" + ToStringAlign(k, 3)`; the helper `ToStringAlign` is declared outside
`BlendApp.cpp` and is taken to give different strings for different `k`. -/
inductive MaterialName where
  | grass
  | water
  | bolt (k : Nat)
  deriving DecidableEq, Repr

/-- The keys of `mTextures`: `"grassTex"`, `"waterTex"` and
`"bolt" + ToStringAlign(k, 3) + "Tex"`. -/
inductive TextureName where
  | grassTex
  | waterTex
  | boltTex (k : Nat)
  deriving DecidableEq, Repr

/-- The keys of `mGeometries` used by the render items: `"waterGeo"`,
`"landGeo"` and `"cylinder" + ToStringAlign(k, 3) + "Geo"`. -/
inductive GeometryName where
  | waterGeo
  | landGeo
  | cylinderGeo (k : Nat)
  deriving DecidableEq, Repr

/-- The fields of `RenderItem` that identify it. -/
structure RenderItem where
  ObjCBIndex : Nat
  Mat : MaterialName
  Geo : GeometryName
  deriving DecidableEq, Repr

/-- The render-item tables of `BlendApp`: the three entries of `mRitemLayer`
and `mAllRitems`. -/
structure RenderItems where
  Opaque : List RenderItem
  AlphaTested : List RenderItem
  Transparent : List RenderItem
  mAllRitems : List RenderItem
  deriving DecidableEq, Repr

/-- The loop `for (int i = 1; i <= 60; i++)` of `BlendApp::BuildRenderItems`, by
recursion on the number of iterations left: cylinder item `i` is pushed to the
alpha-tested layer and to `mAllRitems`. -/
def BuildRenderItems.loop : Nat → Nat → RenderItems → RenderItems
  | 0, _, items => items
  | left + 1, i, items =>
    let cylinderRitem : RenderItem :=
      { ObjCBIndex := 1 + i, Mat := MaterialName.bolt i, Geo := GeometryName.cylinderGeo i }
    BuildRenderItems.loop left (i + 1)
      { items with
        AlphaTested := items.AlphaTested ++ [cylinderRitem]
        mAllRitems := items.mAllRitems ++ [cylinderRitem] }

/-- The method `BlendApp::BuildRenderItems`, on tables that start empty. -/
def BuildRenderItems : RenderItems :=
  let wavesRitem : RenderItem :=
    { ObjCBIndex := 0, Mat := MaterialName.water, Geo := GeometryName.waterGeo }
  let gridRitem : RenderItem :=
    { ObjCBIndex := 1, Mat := MaterialName.grass, Geo := GeometryName.landGeo }
  let items := BuildRenderItems.loop 60 1
    { Opaque := [gridRitem], AlphaTested := [], Transparent := [wavesRitem], mAllRitems := [] }
  { items with mAllRitems := items.mAllRitems ++ [wavesRitem, gridRitem] }

/-- The animation state of `BlendApp`: the index of the cylinder item to draw
and the time of its last change. -/
structure AnimateState where
  AnimateIdx : Nat
  animateGone : ℚ
  deriving DecidableEq, Repr

/-- The animation block of `BlendApp::UpdateAnimate`:
`if (gt.TotalTime() - animateGone >= 1.0 / 60) { AnimateIdx = (AnimateIdx + 1) % 60;
animateGone = gt.TotalTime(); }`.  The rest of the method only touches the
water material. -/
def BlendApp.UpdateAnimate (s : AnimateState) (TotalTime : ℚ) : AnimateState :=
  if TotalTime - s.animateGone ≥ 1 / 60 then
    { AnimateIdx := (s.AnimateIdx + 1) % 60, animateGone := TotalTime }
  else s

/-- A sequence of `UpdateAnimate` calls, one per total time in the list. -/
def animateRun : AnimateState → List ℚ → AnimateState
  | s, [] => s
  | s, TotalTime :: rest => animateRun (BlendApp.UpdateAnimate s TotalTime) rest

/-- The access `items[AnimateIdx]` in `BlendApp::Draw`, where `items` is the
alpha-tested layer; `none` outside the vector. -/
def Draw.animateItem (items : RenderItems) (s : AnimateState) : Option RenderItem :=
  items.AlphaTested[s.AnimateIdx]?

/-- The fields of `Material` that place it in the constant buffer and in the
descriptor heap. -/
structure Material where
  Name : MaterialName
  MatCBIndex : Nat
  DiffuseSrvHeapIndex : Nat
  deriving DecidableEq, Repr

/-- The assignment `mMaterials[mat->Name] = std::move(mat)` on the map
`mMaterials`: the entry with that name is replaced, or a new one is added. -/
def insertMaterial (mMaterials : List Material) (mat : Material) : List Material :=
  if mMaterials.any (fun m => decide (m.Name = mat.Name)) then
    mMaterials.map (fun m => if m.Name = mat.Name then mat else m)
  else mMaterials ++ [mat]

/-- The loop `for (int i = 0; i < 60; i++)` of `BlendApp::BuildMaterials`, by
recursion on the number of iterations left: material `bolt(i+1)` gets
`MatCBIndex = DiffuseSrvHeapIndex = 2 + i`. -/
def BuildMaterials.loop : Nat → Nat → List Material → List Material
  | 0, _, mMaterials => mMaterials
  | left + 1, i, mMaterials =>
    BuildMaterials.loop left (i + 1)
      (insertMaterial mMaterials
        { Name := MaterialName.bolt (i + 1), MatCBIndex := 2 + i, DiffuseSrvHeapIndex := 2 + i })

/-- The method `BlendApp::BuildMaterials`, on a map that starts empty: the bolt
loop, then `grass` and `water` are stored. -/
def BuildMaterials : List Material :=
  let grass : Material :=
    { Name := MaterialName.grass, MatCBIndex := 0, DiffuseSrvHeapIndex := 0 }
  let water : Material :=
    { Name := MaterialName.water, MatCBIndex := 1, DiffuseSrvHeapIndex := 1 }
  insertMaterial (insertMaterial (BuildMaterials.loop 60 0 []) grass) water

/-- The descriptor heap built by `BuildDescriptorHeaps`: its size and, for each
`CreateShaderResourceView` call in order, the offset of `hDescriptor` (in
descriptors) and the texture viewed. -/
structure SrvHeap where
  NumDescriptors : Nat
  views : List (Nat × TextureName)
  deriving DecidableEq, Repr

/-- The loop `for (int i = 1; i <= 60; i++)` of `BlendApp::BuildDescriptorHeaps`,
by recursion on the number of iterations left: `hDescriptor.Offset(1, ...)`, then
a view of texture `bolt(i)Tex` is created at `hDescriptor`. -/
def BuildDescriptorHeaps.loop :
    Nat → Nat → Nat → List (Nat × TextureName) → List (Nat × TextureName)
  | 0, _, _, views => views
  | left + 1, i, hDescriptor, views =>
    BuildDescriptorHeaps.loop left (i + 1) (hDescriptor + 1)
      (views ++ [(hDescriptor + 1, TextureName.boltTex i)])

/-- The method `BlendApp::BuildDescriptorHeaps`: a heap of 62 descriptors; the
grass texture is viewed at the heap start, the water texture one descriptor
further, then the bolt loop. -/
def BuildDescriptorHeaps : SrvHeap :=
  let numDescriptors := 62
  let hDescriptor := 0
  let views := [(hDescriptor, TextureName.grassTex)]
  let hDescriptor := hDescriptor + 1
  let views := views ++ [(hDescriptor, TextureName.waterTex)]
  { NumDescriptors := numDescriptors
    views := BuildDescriptorHeaps.loop 60 1 hDescriptor views }

/-- The texture of a material: the one whose name is the material's name
followed by `"Tex"`. -/
def textureOf : MaterialName → TextureName
  | MaterialName.grass => TextureName.grassTex
  | MaterialName.water => TextureName.waterTex
  | MaterialName.bolt k => TextureName.boltTex k

/-- The material stored under a name in the map. -/
def findMaterial (mMaterials : List Material) (name : MaterialName) : Option Material :=
  mMaterials.find? (fun m => decide (m.Name = name))


/-! ## The index buffer of the wave grid -/

/-- The state of the index loop of `BlendApp::BuildWavesGeometry`: the vector
`indices`, the running position `k`, and a log of the positions written so far,
in order. -/
structure IndexFill where
  indices : List Nat
  k : Nat
  written : List Nat
  deriving DecidableEq, Repr

/-- The assignment `indices[pos] = value` on `std::vector<std::uint16_t>`: the
value is narrowed to 16 bits; a position outside the vector is undefined
behaviour, here `none`. -/
def IndexFill.store (s : IndexFill) (pos value : Nat) : Option IndexFill :=
  if pos < s.indices.length then
    some { s with
      indices := s.indices.set pos (value % 65536)
      written := s.written ++ [pos] }
  else none

/-- The body of the inner loop: the six stores for the quad at row `i`, column
`j` of a grid with `n` columns, then `k += 6`. -/
def BuildWavesGeometry.quad (n i j : Nat) (s : IndexFill) : Option IndexFill :=
  (s.store s.k (i * n + j)).bind fun s1 =>
  (s1.store (s1.k + 1) (i * n + j + 1)).bind fun s2 =>
  (s2.store (s2.k + 2) ((i + 1) * n + j)).bind fun s3 =>
  (s3.store (s3.k + 3) ((i + 1) * n + j)).bind fun s4 =>
  (s4.store (s4.k + 4) (i * n + j + 1)).bind fun s5 =>
  (s5.store (s5.k + 5) ((i + 1) * n + j + 1)).bind fun s6 =>
  some { s6 with k := s6.k + 6 }

/-- The inner loop `for (int j = 0; j < n - 1; ++j)`, by recursion on the number
of iterations left. -/
def BuildWavesGeometry.inner (n i : Nat) : Nat → Nat → IndexFill → Option IndexFill
  | 0, _, s => some s
  | left + 1, j, s =>
    match BuildWavesGeometry.quad n i j s with
    | none => none
    | some s1 => BuildWavesGeometry.inner n i left (j + 1) s1

/-- The outer loop `for (int i = 0; i < m - 1; ++i)`, by recursion on the number
of iterations left. -/
def BuildWavesGeometry.outer (n : Nat) : Nat → Nat → IndexFill → Option IndexFill
  | 0, _, s => some s
  | left + 1, i, s =>
    match BuildWavesGeometry.inner n i (n - 1) 0 s with
    | none => none
    | some s1 => BuildWavesGeometry.outer n left (i + 1) s1

/-- The index part of `BlendApp::BuildWavesGeometry` for a grid of `m` rows and
`n` columns (`mWaves->RowCount()`, `mWaves->ColumnCount()`): the vector of
`3 * TriangleCount` entries is allocated, `assert(VertexCount < 0x0000ffff)` is
checked (`none` when it fails), and the two loops fill the vector. -/
def BuildWavesGeometry.indices (m n TriangleCount VertexCount : Nat) : Option IndexFill :=
  let s0 : IndexFill :=
    { indices := List.replicate (3 * TriangleCount) 0, k := 0, written := [] }
  if VertexCount < 65535 then BuildWavesGeometry.outer n (m - 1) 0 s0 else none

/-- The value of the `t`-th store (`t = 0, ..., 5`) for the quad at row `i`,
column `j`. -/
def quadValue (n i j : Nat) : Nat → Nat
  | 0 => i * n + j
  | 1 => i * n + j + 1
  | 2 => (i + 1) * n + j
  | 3 => (i + 1) * n + j
  | 4 => i * n + j + 1
  | _ => (i + 1) * n + j + 1

/-- The index loop has finished `q` quads of a grid with `n` columns on a vector
of `L` entries: `k` and the log of written positions stand at `6 * q`, and the
six entries of every finished quad hold its 16-bit values. -/
def IndexFilled (n L q : Nat) (s : IndexFill) : Prop :=
  s.k = 6 * q ∧ s.indices.length = L ∧ s.written = List.range (6 * q) ∧
  ∀ q1 t, q1 < q → t < 6 →
    s.indices[6 * q1 + t]? = some (quadValue n (q1 / (n - 1)) (q1 % (n - 1)) t % 65536)


/-! ## Theorems -/

/-! ### Basic facts about `Update` and `Draw` -/

theorem waitCondition_iff (Fence completedValue : Nat) :
    waitCondition Fence completedValue = true ↔ Fence ≠ 0 ∧ completedValue < Fence := by
  simp [waitCondition]

theorem waitCondition_false_iff (Fence completedValue : Nat) :
    waitCondition Fence completedValue = false ↔ Fence = 0 ∨ Fence ≤ completedValue := by
  rw [← Bool.not_eq_true, waitCondition_iff]
  omega

/-- What a returning `Update` has done: the index has advanced, nothing else has
changed, and the frame resource now current is complete at the returned value. -/
theorem Update_some {N : Nat} {app app1 : BlendApp} {obs : FenceObs} {completed : Nat}
    (h : app.Update N obs = some (app1, completed)) :
    app1 = { app with
      mCurrFrameResourceIndex := nextFrameResourceIndex N app.mCurrFrameResourceIndex } ∧
    (completed = obs.seen ∨ completed = obs.woken) ∧
    ∃ fr, app.mFrameResources[nextFrameResourceIndex N app.mCurrFrameResourceIndex]? = some fr ∧
      (fr.Fence = 0 ∨ fr.Fence ≤ completed) := by
  unfold BlendApp.Update at h
  simp only at h
  cases hfr : app.mFrameResources[nextFrameResourceIndex N app.mCurrFrameResourceIndex]? with
  | none => simp [hfr] at h
  | some fr =>
    simp only [hfr] at h
    by_cases hw : waitCondition fr.Fence obs.seen = true
    · simp only [hw, if_true] at h
      by_cases hle : fr.Fence ≤ obs.woken
      · simp only [hle, if_true, Option.some.injEq, Prod.mk.injEq] at h
        obtain ⟨h1, h2⟩ := h
        subst h1 h2
        exact ⟨rfl, Or.inr rfl, fr, rfl, Or.inr hle⟩
      · simp [hle] at h
    · simp only [hw, Bool.false_eq_true, if_false, Option.some.injEq, Prod.mk.injEq] at h
      obtain ⟨h1, h2⟩ := h
      subst h1 h2
      have hw2 : waitCondition fr.Fence obs.seen = false := by simpa using hw
      exact ⟨rfl, Or.inl rfl, fr, rfl, (waitCondition_false_iff _ _).1 hw2⟩

/-- What `Draw` does when the current index is inside the ring. -/
theorem Draw_some {app app1 : BlendApp} {fence : Nat} (h : app.Draw = some (app1, fence)) :
    fence = (app.mCurrentFence + 1) % UINT64_MOD ∧
    ∃ fr, app.mFrameResources[app.mCurrFrameResourceIndex]? = some fr ∧
      app1 = { app with
        mCurrentFence := fence
        mFrameResources :=
          app.mFrameResources.set app.mCurrFrameResourceIndex { fr with Fence := fence } } := by
  unfold BlendApp.Draw at h
  simp only at h
  cases hfr : app.mFrameResources[app.mCurrFrameResourceIndex]? with
  | none => simp [hfr] at h
  | some fr =>
    simp only [hfr, Option.some.injEq, Prod.mk.injEq] at h
    obtain ⟨h1, h2⟩ := h
    subst h2
    exact ⟨rfl, fr, rfl, h1.symm⟩

/-- The submit in `Draw` returns whenever the current index is inside the ring. -/
theorem Draw_isSome (app : BlendApp)
    (h : app.mCurrFrameResourceIndex < app.mFrameResources.length) :
    ∃ app1, app.Draw = some (app1, (app.mCurrentFence + 1) % UINT64_MOD) := by
  unfold BlendApp.Draw
  simp [List.getElem?_eq_getElem h]

/-- One frame, taken apart. -/
theorem tick_some {N : Nat} {app app2 : BlendApp} {obs : FenceObs} {fence : Nat}
    (h : app.tick N obs = some (app2, fence)) :
    ∃ app1 completed, app.Update N obs = some (app1, completed) ∧
      app1.Draw = some (app2, fence) := by
  unfold BlendApp.tick at h
  cases hu : app.Update N obs with
  | none => simp [hu] at h
  | some r =>
    obtain ⟨app1, completed⟩ := r
    simp only [hu] at h
    exact ⟨app1, completed, rfl, h⟩

/-- A run of at least one frame, taken apart. -/
theorem run_cons_some {N : Nat} {app app2 : BlendApp} {obs : FenceObs} {rest : List FenceObs}
    {fences : List Nat} (h : app.run N (obs :: rest) = some (app2, fences)) :
    ∃ app1 fence tail, app.tick N obs = some (app1, fence) ∧
      app1.run N rest = some (app2, tail) ∧ fences = fence :: tail := by
  rw [BlendApp.run] at h
  cases ht : app.tick N obs with
  | none => simp [ht] at h
  | some r =>
    obtain ⟨app1, fence⟩ := r
    simp only [ht] at h
    cases hr : app1.run N rest with
    | none => simp [hr] at h
    | some q =>
      obtain ⟨app3, tail⟩ := q
      simp only [hr, Option.some.injEq, Prod.mk.injEq] at h
      obtain ⟨h1, h2⟩ := h
      subst h1
      exact ⟨app1, fence, tail, rfl, hr, h2.symm⟩

/-- While the completed value of the fence stays at `w`, `Update` does not
return exactly when the fence value of the targeted frame resource is nonzero
and above `w`. -/
theorem Update_none_iff {N : Nat} {app : BlendApp} {fr : FrameResource} (w : Nat)
    (hfr : app.mFrameResources[nextFrameResourceIndex N app.mCurrFrameResourceIndex]? = some fr) :
    app.Update N ⟨w, w⟩ = none ↔ fr.Fence ≠ 0 ∧ w < fr.Fence := by
  unfold BlendApp.Update
  simp only [hfr]
  by_cases hw : waitCondition fr.Fence w = true
  · have h := (waitCondition_iff _ _).1 hw
    have hle : ¬ fr.Fence ≤ w := by omega
    simp [hw, hle, h]
  · have hw2 : waitCondition fr.Fence w = false := by simpa using hw
    have h := (waitCondition_false_iff _ _).1 hw2
    simp [hw2]
    omega

/-- The values signalled by a run that starts at counter `c` and does not wrap
around are `c + 1, c + 2, ...`. -/
theorem run_fences {N : Nat} (ticks : List FenceObs) :
    ∀ (app app1 : BlendApp) (fences : List Nat),
      app.mCurrentFence + ticks.length < UINT64_MOD →
      app.run N ticks = some (app1, fences) →
      fences = (List.range ticks.length).map (fun k => app.mCurrentFence + (k + 1)) ∧
      app1.mCurrentFence = app.mCurrentFence + ticks.length := by
  induction ticks with
  | nil =>
    intro app app1 fences _ h
    simp [BlendApp.run] at h
    simp [h.1, h.2]
  | cons obs rest ih =>
    intro app app1 fences hwrap h
    obtain ⟨app2, fence, tail, ht, hr, hf⟩ := run_cons_some h
    obtain ⟨appu, completed, hu, hd⟩ := tick_some ht
    obtain ⟨hu1, -, -⟩ := Update_some hu
    obtain ⟨hfence, fr, -, hd1⟩ := Draw_some hd
    have hc : appu.mCurrentFence = app.mCurrentFence := by rw [hu1]
    simp only [List.length_cons] at hwrap
    have hfence2 : fence = app.mCurrentFence + 1 := by
      rw [hfence, hc]
      exact Nat.mod_eq_of_lt (by omega)
    have hc2 : app2.mCurrentFence = app.mCurrentFence + 1 := by rw [hd1]; exact hfence2
    obtain ⟨ih1, ih2⟩ := ih app2 app1 tail (by omega) hr
    refine ⟨?_, ?_⟩
    · rw [hf, ih1, hfence2, List.length_cons, List.range_succ_eq_map]
      simp only [List.map_cons, List.map_map, hc2]
      congr 1
      apply List.map_congr_left
      intro k _
      simp only [Function.comp_apply]
      omega
    · rw [ih2, hc2, List.length_cons]
      omega

/-! ### The shape of the ring after `k` frames -/

theorem nextFrameResourceIndex_eq {N index : Nat} (hi : index < N) :
    nextFrameResourceIndex N index = if index + 1 < N then index + 1 else 0 := by
  unfold nextFrameResourceIndex
  split_ifs with h
  · exact Nat.mod_eq_of_lt h
  · have : index + 1 = N := by omega
    rw [this, Nat.mod_self]

theorem nextFrameResourceIndex_lt {N : Nat} (index : Nat) (hN : 1 ≤ N) :
    nextFrameResourceIndex N index < N :=
  Nat.mod_lt _ (by omega)

theorem slotAge_next_self (N index : Nat) :
    slotAge N (nextFrameResourceIndex N index) (nextFrameResourceIndex N index) = 0 := by
  simp [slotAge]

theorem slotAge_next_of_ne {N index s : Nat} (hi : index < N) (hs : s < N)
    (hne : s ≠ nextFrameResourceIndex N index) :
    slotAge N (nextFrameResourceIndex N index) s = slotAge N index s + 1 := by
  rw [nextFrameResourceIndex_eq hi] at hne ⊢
  unfold slotAge
  split_ifs at hne ⊢ <;> omega

theorem slotAge_target {N index : Nat} (hi : index < N) :
    slotAge N index (nextFrameResourceIndex N index) = N - 1 := by
  rw [nextFrameResourceIndex_eq hi]
  unfold slotAge
  split_ifs <;> omega

theorem BuildFrameResource_loop_eq (waveVertCount : Nat) :
    ∀ (left : Nat) (acc : List FrameResource),
      BuildFrameResource.loop waveVertCount left acc =
        acc ++ List.replicate left (FrameResource.ctor waveVertCount) := by
  intro left
  induction left with
  | zero => intro acc; simp [BuildFrameResource.loop]
  | succ n ih =>
    intro acc
    rw [BuildFrameResource.loop, ih, List.replicate_succ, List.append_assoc]
    rfl

theorem BuildFrameResource_eq (N waveVertCount : Nat) :
    BuildFrameResource N waveVertCount = List.replicate N (FrameResource.ctor waveVertCount) := by
  simp [BuildFrameResource, BuildFrameResource_loop_eq]

theorem RingInv_fresh {N waveVertCount index0 c0 : Nat} (hi : index0 < N)
    (hc : c0 < UINT64_MOD) : RingInv N c0 0 (BlendApp.fresh N waveVertCount index0 c0) := by
  refine ⟨?_, hi, ?_, ?_⟩
  · simp [BlendApp.fresh, BuildFrameResource_eq]
  · simp [BlendApp.fresh, Nat.mod_eq_of_lt hc]
  · intro s hs
    refine ⟨FrameResource.ctor waveVertCount, ?_, ?_⟩
    · simp [BlendApp.fresh, BuildFrameResource_eq, List.getElem?_replicate, hs]
    · simp [FrameResource.ctor]

/-- One frame keeps the shape of the ring and signals the next counter value. -/
theorem RingInv_tick {N c0 k : Nat} {app app2 : BlendApp} {obs : FenceObs} {fence : Nat}
    (hinv : RingInv N c0 k app) (ht : app.tick N obs = some (app2, fence)) :
    RingInv N c0 (k + 1) app2 ∧ fence = (c0 + (k + 1)) % UINT64_MOD := by
  obtain ⟨hlen, hidx, hctr, hslots⟩ := hinv
  obtain ⟨app1, completed, hu, hd⟩ := tick_some ht
  obtain ⟨hu1, -, -⟩ := Update_some hu
  obtain ⟨hf, fr, hfr, hd1⟩ := Draw_some hd
  have hN : 1 ≤ N := by omega
  have hnext := nextFrameResourceIndex_lt app.mCurrFrameResourceIndex hN
  have hfence : fence = (c0 + (k + 1)) % UINT64_MOD := by
    rw [hf, hu1]
    simp only [hctr, Nat.mod_add_mod]
    rfl
  subst hu1
  simp only at hfr hd1
  subst hd1
  refine ⟨⟨by simpa using hlen, hnext, hfence, ?_⟩, hfence⟩
  intro s hs
  simp only
  by_cases hsn : s = nextFrameResourceIndex N app.mCurrFrameResourceIndex
  · subst hsn
    refine ⟨{ fr with Fence := fence }, ?_, ?_⟩
    · simp [List.getElem?_set, hlen, hnext]
    · simp [slotAge_next_self, hfence]
  · obtain ⟨fr0, hfr0, hval⟩ := hslots s hs
    refine ⟨fr0, ?_, ?_⟩
    · rw [List.getElem?_set_ne (Ne.symm hsn)]
      exact hfr0
    · rw [hval, slotAge_next_of_ne hidx hs hsn]
      simp only [Nat.add_lt_add_iff_right, Nat.add_sub_add_right]

/-- A run keeps the shape of the ring and signals consecutive counter values. -/
theorem RingInv_run {N c0 : Nat} (ticks : List FenceObs) :
    ∀ (k : Nat) (app app1 : BlendApp) (fences : List Nat),
      RingInv N c0 k app → app.run N ticks = some (app1, fences) →
      RingInv N c0 (k + ticks.length) app1 ∧
      fences = (List.range ticks.length).map (fun j => (c0 + (k + (j + 1))) % UINT64_MOD) := by
  induction ticks with
  | nil =>
    intro k app app1 fences hinv h
    simp [BlendApp.run] at h
    obtain ⟨h1, h2⟩ := h
    subst h1 h2
    exact ⟨hinv, by simp⟩
  | cons obs rest ih =>
    intro k app app1 fences hinv h
    obtain ⟨app2, fence, tail, ht, hr, hf⟩ := run_cons_some h
    obtain ⟨hinv2, hfence⟩ := RingInv_tick hinv ht
    obtain ⟨ih1, ih2⟩ := ih (k + 1) app2 app1 tail hinv2 hr
    refine ⟨?_, ?_⟩
    · have : k + (obs :: rest).length = k + 1 + rest.length := by
        simp only [List.length_cons]; omega
      rw [this]
      exact ih1
    · rw [hf, ih2, hfence, List.length_cons, List.range_succ_eq_map]
      simp only [List.map_cons, List.map_map]
      congr 1
      apply List.map_congr_left
      intro j _
      simp only [Function.comp_apply]
      congr 2
      omega

/-- While fewer than `N` frames have been submitted, the next frame does not
wait, whatever the GPU fence shows. -/
theorem RingInv_tick_returns {N c0 k : Nat} {app : BlendApp} (obs : FenceObs)
    (hinv : RingInv N c0 k app) (hk : k < N) :
    ∃ app2 fence, app.tick N obs = some (app2, fence) := by
  obtain ⟨hlen, hidx, -, hslots⟩ := hinv
  have hN : 1 ≤ N := by omega
  have hnext := nextFrameResourceIndex_lt app.mCurrFrameResourceIndex hN
  obtain ⟨fr, hfr, hval⟩ := hslots _ hnext
  rw [slotAge_target hidx, if_neg (by omega)] at hval
  have hu : app.Update N obs =
      some ({ app with mCurrFrameResourceIndex :=
        nextFrameResourceIndex N app.mCurrFrameResourceIndex }, obs.seen) := by
    unfold BlendApp.Update
    simp [hfr, hval, waitCondition]
  obtain ⟨app2, hd⟩ := Draw_isSome
    { app with mCurrFrameResourceIndex :=
        nextFrameResourceIndex N app.mCurrFrameResourceIndex } (by simpa [hlen] using hnext)
  refine ⟨app2, (app.mCurrentFence + 1) % UINT64_MOD, ?_⟩
  unfold BlendApp.tick
  rw [hu]
  exact hd

/-- From a ring `k` frames after a fresh start, `m` more frames return as long
as `k + m ≤ N`. -/
theorem RingInv_run_returns {N c0 : Nat} (obs : FenceObs) :
    ∀ (m k : Nat) (app : BlendApp), RingInv N c0 k app → k + m ≤ N →
      ∃ app1 fences, app.run N (List.replicate m obs) = some (app1, fences) := by
  intro m
  induction m with
  | zero => intro k app _ _; exact ⟨app, [], by simp [BlendApp.run]⟩
  | succ m ih =>
    intro k app hinv hk
    obtain ⟨app2, fence, ht⟩ := RingInv_tick_returns obs hinv (by omega)
    obtain ⟨hinv2, -⟩ := RingInv_tick hinv ht
    obtain ⟨app1, fences, hr⟩ := ih (k + 1) app2 hinv2 (by omega)
    exact ⟨app1, fence :: fences, by simp [List.replicate_succ, BlendApp.run, ht, hr]⟩

theorem add_mod_le (a b M : Nat) : (a + b) % M ≤ a % M + b := by
  rw [← Nat.mod_add_mod]
  exact Nat.mod_le _ _

theorem nonDecreasingFrom_le (l : List Nat) :
    ∀ a, nonDecreasingFrom a l = true → ∀ x ∈ l, a ≤ x := by
  induction l with
  | nil => intro a _ x hx; cases hx
  | cons b rest ih =>
    intro a h x hx
    simp only [nonDecreasingFrom, Bool.and_eq_true, decide_eq_true_eq] at h
    rcases List.mem_cons.1 hx with rfl | hx
    · exact h.1
    · exact le_trans h.1 (ih b h.2 x hx)

theorem watermarks_append (xs ys : List FenceObs) :
    watermarks (xs ++ ys) = watermarks xs ++ watermarks ys := by
  induction xs with
  | nil => rfl
  | cons x rest ih => simp [watermarks, ih]

theorem selectedIndices_eq (N : Nat) :
    ∀ (count index : Nat),
      selectedIndices N index count =
        (List.range count).map (fun j => (index + 1 + j) % N) := by
  intro count
  induction count with
  | zero => intro index; rfl
  | succ c ih =>
    intro index
    rw [selectedIndices, ih, List.range_succ_eq_map]
    simp only [List.map_cons, List.map_map, nextFrameResourceIndex, Nat.add_zero]
    congr 1
    apply List.map_congr_left
    intro j _
    simp only [Function.comp_apply]
    rw [Nat.add_assoc ((index + 1) % N), Nat.mod_add_mod]
    congr 1
    omega

theorem indexAfter_eq (N : Nat) :
    ∀ (count index : Nat), index < N → indexAfter N index count = (index + count) % N := by
  intro count
  induction count with
  | zero => intro index hi; simp [indexAfter, Nat.mod_eq_of_lt hi]
  | succ c ih =>
    intro index hi
    rw [indexAfter, ih _ (nextFrameResourceIndex_lt _ (by omega))]
    unfold nextFrameResourceIndex
    rw [Nat.mod_add_mod]
    congr 1
    omega

theorem selectedIndices_eq_rotate (N index : Nat) :
    selectedIndices N index N = (List.range N).rotate (index + 1) := by
  rw [selectedIndices_eq]
  apply List.ext_getElem
  · simp
  · intro k h1 h2
    rw [List.getElem_rotate]
    simp only [List.getElem_map, List.getElem_range, List.length_range]
    congr 1
    omega

/-! ### Claims about the ring -/

/-- C1 (exclusive producer ownership).  For every ring size `N ≥ 1`, in every
state reached by any sequence of frames, once the acquire step of `Update` has
returned, the fence value stored in the frame resource that is now current is 0
or at most the completed value of the GPU fence, and this stays so for every
later (non-decreasing) completed value `later` observed before `Draw` submits
that frame resource again: no submitted but uncompleted fence value refers to
the frame resource the CPU is writing.  The property holds whatever the history
of the ring was. -/
theorem exclusive_producer_ownership (N : Nat) (hN : 1 ≤ N) (app0 : BlendApp)
    (ticks : List FenceObs) (app : BlendApp) (fences : List Nat)
    (hrun : app0.run N ticks = some (app, fences))
    (obs : FenceObs) (app1 : BlendApp) (completed : Nat)
    (hacq : app.Update N obs = some (app1, completed))
    (later : Nat) (hmono : completed ≤ later) :
    ∃ fr, app1.mFrameResources[app1.mCurrFrameResourceIndex]? = some fr ∧
      (fr.Fence = 0 ∨ fr.Fence ≤ later) := by
  obtain ⟨h1, -, fr, hfr, hle⟩ := Update_some hacq
  refine ⟨fr, ?_, ?_⟩
  · rw [h1]
    exact hfr
  · omega

/-- Witness for C1: three frames on a fresh ring of three, then a fourth
`Update` that waits on fence value 2 and is woken at completed value 2. -/
theorem exclusive_producer_ownership_witness :
    ∃ fr, (BlendApp.mk [⟨2, ⟨[]⟩⟩, ⟨3, ⟨[]⟩⟩, ⟨4, ⟨[]⟩⟩] 0 4).mFrameResources[0]? = some fr ∧
      (fr.Fence = 0 ∨ fr.Fence ≤ 3) :=
  exclusive_producer_ownership 3 (by decide) (BlendApp.fresh 3 0 2 1)
    [⟨1, 1⟩, ⟨1, 1⟩, ⟨1, 1⟩] ⟨[⟨2, ⟨[]⟩⟩, ⟨3, ⟨[]⟩⟩, ⟨4, ⟨[]⟩⟩], 2, 4⟩ [2, 3, 4] (by decide)
    ⟨1, 2⟩ ⟨[⟨2, ⟨[]⟩⟩, ⟨3, ⟨[]⟩⟩, ⟨4, ⟨[]⟩⟩], 0, 4⟩ 2 (by decide) 3 (by decide)

/-- C2 as stated fails: with fence value 1 and completed value 2 the value is
nonzero and below the completed value, yet `Update` does not wait; with fence
value 2 and completed value 1 it waits although 2 is not below 1. -/
theorem acquire_suspension_as_stated_fails :
    ¬ (waitCondition 1 2 = true ↔ ((1 : Nat) ≠ 0 ∧ (1 : Nat) < 2)) ∧
    ¬ (waitCondition 2 1 = true ↔ ((2 : Nat) ≠ 0 ∧ (2 : Nat) < 1)) := by
  decide

/-- C2, amended (suspension condition of the acquire step).  For every fence
value `t` of the targeted frame resource and completed value `w`, the `if` of
`Update` takes the waiting branch if and only if `t` is nonzero and `w` is less
than `t`; and while the completed value stays at `w`, `Update` does not return
if and only if `t` is nonzero and `w` is less than `t`. -/
theorem acquire_suspension_condition (N : Nat) (app : BlendApp) (fr : FrameResource) (w : Nat)
    (hfr : app.mFrameResources[nextFrameResourceIndex N app.mCurrFrameResourceIndex]? = some fr) :
    (waitCondition fr.Fence w = true ↔ fr.Fence ≠ 0 ∧ w < fr.Fence) ∧
    (app.Update N ⟨w, w⟩ = none ↔ fr.Fence ≠ 0 ∧ w < fr.Fence) :=
  ⟨waitCondition_iff _ _, Update_none_iff w hfr⟩

/-- Witness for C2 (amended): a ring of three whose next frame resource carries
fence value 2, at completed value 1. -/
theorem acquire_suspension_condition_witness :
    (waitCondition 2 1 = true ↔ (2 : Nat) ≠ 0 ∧ 1 < 2) ∧
    ((BlendApp.mk [⟨2, ⟨[]⟩⟩, ⟨3, ⟨[]⟩⟩, ⟨4, ⟨[]⟩⟩] 2 4).Update 3 ⟨1, 1⟩ = none ↔
      (2 : Nat) ≠ 0 ∧ 1 < 2) :=
  acquire_suspension_condition 3 ⟨[⟨2, ⟨[]⟩⟩, ⟨3, ⟨[]⟩⟩, ⟨4, ⟨[]⟩⟩], 2, 4⟩ ⟨2, ⟨[]⟩⟩ 1 (by decide)

/-- C3 (token monotonicity).  Every submit at the end of `Draw` sets
`mCurrentFence` to its previous value plus one (modulo `2 ^ 64`), signals that
value and stores exactly it as the fence value of the current frame resource.
Hence, for every run of frames that starts at counter `c0` and does not wrap
around, the `k`-th submit yields `c0 + k`, the values are strictly increasing in
submission order, and the counter ends at `c0` plus the number of submits. -/
theorem token_monotonicity (N : Nat) (app : BlendApp) (ticks : List FenceObs)
    (app1 : BlendApp) (fences : List Nat)
    (hwrap : app.mCurrentFence + ticks.length < UINT64_MOD)
    (hrun : app.run N ticks = some (app1, fences)) :
    (∀ (a a1 : BlendApp) (fence : Nat), a.Draw = some (a1, fence) →
      fence = (a.mCurrentFence + 1) % UINT64_MOD ∧ a1.mCurrentFence = fence ∧
      a1.mCurrFrameResourceIndex = a.mCurrFrameResourceIndex ∧
      ∃ fr, a1.mFrameResources[a1.mCurrFrameResourceIndex]? = some fr ∧ fr.Fence = fence) ∧
    fences = (List.range ticks.length).map (fun k => app.mCurrentFence + (k + 1)) ∧
    List.Pairwise (fun x y => x < y) fences ∧
    app1.mCurrentFence = app.mCurrentFence + ticks.length := by
  obtain ⟨h1, h2⟩ := run_fences ticks app app1 fences hwrap hrun
  refine ⟨?_, h1, ?_, h2⟩
  · intro a a1 fence hd
    obtain ⟨hf, fr, hfr, ha1⟩ := Draw_some hd
    have hlt : a.mCurrFrameResourceIndex < a.mFrameResources.length := by
      by_contra hge
      rw [List.getElem?_eq_none (by omega)] at hfr
      cases hfr
    refine ⟨hf, by rw [ha1], by rw [ha1], { fr with Fence := fence }, ?_, rfl⟩
    rw [ha1]
    simp [List.getElem?_set, hlt]
  · rw [h1, List.pairwise_map]
    refine (List.pairwise_lt_range _).imp ?_
    intro a b hab
    omega

/-- Witness for C3: three frames on a fresh ring of three starting at counter 1
signal 2, 3, 4. -/
theorem token_monotonicity_witness :
    (∀ (a a1 : BlendApp) (fence : Nat), a.Draw = some (a1, fence) →
      fence = (a.mCurrentFence + 1) % UINT64_MOD ∧ a1.mCurrentFence = fence ∧
      a1.mCurrFrameResourceIndex = a.mCurrFrameResourceIndex ∧
      ∃ fr, a1.mFrameResources[a1.mCurrFrameResourceIndex]? = some fr ∧ fr.Fence = fence) ∧
    [2, 3, 4] = (List.range 3).map (fun k => 1 + (k + 1)) ∧
    List.Pairwise (fun x y => x < y) [2, 3, 4] ∧
    (4 : Nat) = 1 + 3 :=
  token_monotonicity 3 (BlendApp.fresh 3 0 2 1) [⟨1, 1⟩, ⟨1, 1⟩, ⟨1, 1⟩]
    ⟨[⟨2, ⟨[]⟩⟩, ⟨3, ⟨[]⟩⟩, ⟨4, ⟨[]⟩⟩], 2, 4⟩ [2, 3, 4] (by decide) (by decide)

/-- C4 (ring liveness).  Start from a fresh ring of `N ≥ 1` frame resources
(every fence value 0) with counter `c0`, and let the completed value of the GPU
fence stay at `w0 ≤ c0` (nothing completes after the start; the first submit
does not wrap around).  Then each of the first `N` frames finds the wait
condition false and returns; after `N` frames the first submit has signalled
`c0 + 1`, the frame resource targeted by the `(N+1)`-th `Update` holds that
value, its wait condition is true and `Update` does not return while the
completed value stays at `w0`; and for every completed value `w ≥ c0 + 1` the
wait condition is false and `Update` returns, both when it had already started
to wait and when it first looks at the fence. -/
theorem ring_liveness (N waveVertCount index0 c0 w0 : Nat) (hN : 1 ≤ N) (hi : index0 < N)
    (hw : w0 ≤ c0) (hc : c0 + 1 < UINT64_MOD) :
    (∀ k, k < N → ∃ app fences fr,
      (BlendApp.fresh N waveVertCount index0 c0).run N (List.replicate k ⟨w0, w0⟩)
        = some (app, fences) ∧
      app.mFrameResources[nextFrameResourceIndex N app.mCurrFrameResourceIndex]? = some fr ∧
      waitCondition fr.Fence w0 = false ∧
      (app.Update N ⟨w0, w0⟩).isSome = true) ∧
    ∃ app fences fr,
      (BlendApp.fresh N waveVertCount index0 c0).run N (List.replicate N ⟨w0, w0⟩)
        = some (app, fences) ∧
      fences.head? = some (c0 + 1) ∧
      app.mFrameResources[nextFrameResourceIndex N app.mCurrFrameResourceIndex]? = some fr ∧
      fr.Fence = c0 + 1 ∧
      waitCondition fr.Fence w0 = true ∧
      app.Update N ⟨w0, w0⟩ = none ∧
      ∀ w, c0 + 1 ≤ w →
        waitCondition fr.Fence w = false ∧
        (app.Update N ⟨w0, w⟩).isSome = true ∧
        (app.Update N ⟨w, w⟩).isSome = true := by
  have hfresh : RingInv N c0 0 (BlendApp.fresh N waveVertCount index0 c0) :=
    RingInv_fresh hi (by omega)
  constructor
  · intro k hk
    obtain ⟨app, fences, hr⟩ := RingInv_run_returns ⟨w0, w0⟩ k 0 _ hfresh (by omega)
    obtain ⟨hinv, -⟩ := RingInv_run _ 0 _ _ _ hfresh hr
    simp only [List.length_replicate, Nat.zero_add] at hinv
    have hinv0 := hinv
    obtain ⟨-, hidx, -, hslots⟩ := hinv
    obtain ⟨fr, hfr, hval⟩ := hslots _ (nextFrameResourceIndex_lt _ hN)
    rw [slotAge_target hidx, if_neg (by omega)] at hval
    refine ⟨app, fences, fr, hr, hfr, by simp [waitCondition, hval], ?_⟩
    obtain ⟨app2, fence, ht⟩ := RingInv_tick_returns ⟨w0, w0⟩ hinv0 hk
    obtain ⟨app1, completed, hu, -⟩ := tick_some ht
    simp [hu]
  · obtain ⟨app, fences, hr⟩ := RingInv_run_returns ⟨w0, w0⟩ N 0 _ hfresh (by omega)
    obtain ⟨hinv, hf⟩ := RingInv_run _ 0 _ _ _ hfresh hr
    simp only [List.length_replicate, Nat.zero_add] at hinv hf
    obtain ⟨-, hidx, -, hslots⟩ := hinv
    obtain ⟨fr, hfr, hval⟩ := hslots _ (nextFrameResourceIndex_lt _ hN)
    have hone : N - (N - 1) = 1 := by omega
    rw [slotAge_target hidx, if_pos (by omega), hone, Nat.mod_eq_of_lt hc] at hval
    have hwait : waitCondition fr.Fence w0 = true := by
      rw [waitCondition_iff]; omega
    refine ⟨app, fences, fr, hr, ?_, hfr, hval, hwait, ?_, ?_⟩
    · obtain ⟨n, rfl⟩ : ∃ n, N = n + 1 := ⟨N - 1, by omega⟩
      rw [hf, List.range_succ_eq_map]
      simp [Nat.mod_eq_of_lt hc]
    · rw [Update_none_iff w0 hfr]; omega
    · intro w hwc
      have hnw : waitCondition fr.Fence w = false := by
        rw [waitCondition_false_iff]; omega
      refine ⟨hnw, ?_, ?_⟩
      · have hle : fr.Fence ≤ w := by omega
        unfold BlendApp.Update
        simp [hfr, hwait, hle]
      · unfold BlendApp.Update
        simp [hfr, hnw]

/-- Witness for C4: the case `N = 3` with counter and completed value 0. -/
theorem ring_liveness_witness :
    (∀ k, k < 3 → ∃ app fences fr,
      (BlendApp.fresh 3 0 0 0).run 3 (List.replicate k ⟨0, 0⟩) = some (app, fences) ∧
      app.mFrameResources[nextFrameResourceIndex 3 app.mCurrFrameResourceIndex]? = some fr ∧
      waitCondition fr.Fence 0 = false ∧
      (app.Update 3 ⟨0, 0⟩).isSome = true) ∧
    ∃ app fences fr,
      (BlendApp.fresh 3 0 0 0).run 3 (List.replicate 3 ⟨0, 0⟩) = some (app, fences) ∧
      fences.head? = some (0 + 1) ∧
      app.mFrameResources[nextFrameResourceIndex 3 app.mCurrFrameResourceIndex]? = some fr ∧
      fr.Fence = 0 + 1 ∧
      waitCondition fr.Fence 0 = true ∧
      app.Update 3 ⟨0, 0⟩ = none ∧
      ∀ w, 0 + 1 ≤ w →
        waitCondition fr.Fence w = false ∧
        (app.Update 3 ⟨0, w⟩).isSome = true ∧
        (app.Update 3 ⟨w, w⟩).isSome = true :=
  ring_liveness 3 0 0 0 0 (by decide) (by decide) (by decide) (by decide)

/-- C5 (bounded drift).  For every ring size `N ≥ 1`, start from a fresh ring
whose counter `c0` equals the completed value of the GPU fence, and let the
completed values seen during the run be non-decreasing.  Whenever the acquire
step of `Update` has just returned, the number of submitted but uncompleted
fence values, counter minus completed value, is at most `N - 1`. -/
theorem bounded_drift (N waveVertCount index0 c0 : Nat) (hN : 1 ≤ N) (hi : index0 < N)
    (hc : c0 < UINT64_MOD) (ticks : List FenceObs) (obs : FenceObs)
    (hmono : nonDecreasingFrom c0 (watermarks (ticks ++ [obs])) = true)
    (app : BlendApp) (fences : List Nat)
    (hrun : (BlendApp.fresh N waveVertCount index0 c0).run N ticks = some (app, fences))
    (app1 : BlendApp) (completed : Nat)
    (hacq : app.Update N obs = some (app1, completed)) :
    (app1.mCurrentFence : Int) - (completed : Int) ≤ (N : Int) - 1 := by
  obtain ⟨hinv, -⟩ := RingInv_run _ 0 _ _ _ (RingInv_fresh hi hc) hrun
  obtain ⟨-, hidx, hctr, hslots⟩ := hinv
  obtain ⟨h1, hcompl, fr, hfr, hle⟩ := Update_some hacq
  obtain ⟨fr2, hfr2, hval⟩ := hslots _ (nextFrameResourceIndex_lt _ hN)
  rw [hfr] at hfr2
  cases hfr2
  have hge : c0 ≤ completed := by
    have hmem : completed ∈ watermarks (ticks ++ [obs]) := by
      rw [watermarks_append]
      rcases hcompl with h | h <;> simp [watermarks, h]
    exact nonDecreasingFrom_le _ c0 hmono completed hmem
  have hctr1 : app1.mCurrentFence = (c0 + ticks.length) % UINT64_MOD := by
    rw [h1]; simpa using hctr
  rw [slotAge_target hidx] at hval
  simp only [Nat.zero_add] at hval
  have hbound : app1.mCurrentFence ≤ completed + (N - 1) := by
    rw [hctr1]
    by_cases hk : N - 1 < ticks.length
    · rw [if_pos hk] at hval
      have hsplit : c0 + ticks.length = (c0 + (ticks.length - (N - 1))) + (N - 1) := by omega
      have h2 := add_mod_le (c0 + (ticks.length - (N - 1))) (N - 1) UINT64_MOD
      rw [← hsplit, ← hval] at h2
      omega
    · have h2 := Nat.mod_le (c0 + ticks.length) UINT64_MOD
      omega
  omega

/-- Witness for C5: three frames on a fresh ring of three with counter and
completed value 1, then an `Update` that waits and is woken at completed value 2:
the counter is 4, the drift 2. -/
theorem bounded_drift_witness :
    (((BlendApp.mk [⟨2, ⟨[]⟩⟩, ⟨3, ⟨[]⟩⟩, ⟨4, ⟨[]⟩⟩] 0 4).mCurrentFence : Nat) : Int) - ((2 : Nat) : Int)
      ≤ ((3 : Nat) : Int) - 1 :=
  bounded_drift 3 0 2 1 (by decide) (by decide) (by decide) [⟨1, 1⟩, ⟨1, 1⟩, ⟨1, 1⟩] ⟨1, 2⟩
    (by decide) ⟨[⟨2, ⟨[]⟩⟩, ⟨3, ⟨[]⟩⟩, ⟨4, ⟨[]⟩⟩], 2, 4⟩ [2, 3, 4] (by decide)
    ⟨[⟨2, ⟨[]⟩⟩, ⟨3, ⟨[]⟩⟩, ⟨4, ⟨[]⟩⟩], 0, 4⟩ 2 (by decide)

/-- C6 (round-robin acquisition).  Each `Update` sets the ring index to
`(index + 1) mod N`.  For every `N ≥ 1` and every starting index below `N`, the
index stays below `N` after any number of acquires, `N` consecutive acquires
select each of the `N` frame resources exactly once, and after `N` acquires the
index is back at its starting value. -/
theorem round_robin_acquisition (N index : Nat) (hN : 1 ≤ N) (hi : index < N) :
    (∀ (app app1 : BlendApp) (obs : FenceObs) (completed : Nat),
      app.Update N obs = some (app1, completed) →
      app1.mCurrFrameResourceIndex = (app.mCurrFrameResourceIndex + 1) % N) ∧
    (∀ count, indexAfter N index count < N) ∧
    (selectedIndices N index N).length = N ∧
    (selectedIndices N index N).Perm (List.range N) ∧
    (∀ s, s < N → (selectedIndices N index N).count s = 1) ∧
    indexAfter N index N = index := by
  have hperm : (selectedIndices N index N).Perm (List.range N) := by
    rw [selectedIndices_eq_rotate]
    exact List.rotate_perm _ _
  refine ⟨?_, ?_, ?_, hperm, ?_, ?_⟩
  · intro app app1 obs completed h
    obtain ⟨h1, -, -⟩ := Update_some h
    rw [h1]
    rfl
  · intro count
    rw [indexAfter_eq N count index hi]
    exact Nat.mod_lt _ (by omega)
  · rw [hperm.length_eq, List.length_range]
  · intro s hs
    rw [hperm.count_eq]
    exact List.count_eq_one_of_mem (List.nodup_range N) (List.mem_range.2 hs)
  · rw [indexAfter_eq N N index hi, Nat.add_mod_right, Nat.mod_eq_of_lt hi]

/-- Witness for C6: a ring of three at index 1 selects 2, 0, 1 and is back at 1. -/
theorem round_robin_acquisition_witness :
    (∀ (app app1 : BlendApp) (obs : FenceObs) (completed : Nat),
      app.Update 3 obs = some (app1, completed) →
      app1.mCurrFrameResourceIndex = (app.mCurrFrameResourceIndex + 1) % 3) ∧
    (∀ count, indexAfter 3 1 count < 3) ∧
    (selectedIndices 3 1 3).length = 3 ∧
    (selectedIndices 3 1 3).Perm (List.range 3) ∧
    (∀ s, s < 3 → (selectedIndices 3 1 3).count s = 1) ∧
    indexAfter 3 1 3 = 1 :=
  round_robin_acquisition 3 1 (by decide) (by decide)

/-! ### Facts about `UpdateWaves` -/

/-- The disturbance block keeps `t_base` a multiple of a quarter second that
trails `TotalTime` by less than a quarter second, provided no frame takes longer
than that. -/
theorem disturbRun_spec (mWaves : Waves) (rnd : RandomDraws) (ticks : List ℚ) :
    ∀ (t_base TotalTime : ℚ) (n0 : Nat),
      t_base = (n0 : ℚ) / 4 → t_base ≤ TotalTime → TotalTime < t_base + 1 / 4 →
      (∀ dt ∈ ticks, 0 < dt ∧ dt ≤ 1 / 4) →
      (disturbRun mWaves rnd t_base TotalTime ticks).1 =
        ((n0 : ℚ) + ((disturbRun mWaves rnd t_base TotalTime ticks).2.2 : ℚ)) / 4 ∧
      (disturbRun mWaves rnd t_base TotalTime ticks).1 ≤
        (disturbRun mWaves rnd t_base TotalTime ticks).2.1 ∧
      (disturbRun mWaves rnd t_base TotalTime ticks).2.1 <
        (disturbRun mWaves rnd t_base TotalTime ticks).1 + 1 / 4 ∧
      (disturbRun mWaves rnd t_base TotalTime ticks).2.1 = TotalTime + ticks.sum := by
  induction ticks with
  | nil =>
    intro t_base TotalTime n0 h0 h1 h2 _
    simp [disturbRun, h0] at *
    exact ⟨h1, h2⟩
  | cons dt rest ih =>
    intro t_base TotalTime n0 h0 h1 h2 hall
    have hdt := hall dt (List.mem_cons_self _ _)
    have hrest : ∀ d ∈ rest, 0 < d ∧ d ≤ 1 / 4 :=
      fun d hd => hall d (List.mem_cons_of_mem _ hd)
    by_cases hq : TotalTime + dt - t_base ≥ 1 / 4
    · have hd : UpdateWaves.disturb mWaves rnd t_base (TotalTime + dt) =
          (t_base + 1 / 4, some (rnd.RandI 4 (mWaves.RowCount - 5),
            rnd.RandJ 4 (mWaves.ColumnCount - 5), rnd.RandF (1 / 5) (1 / 2))) := by
        unfold UpdateWaves.disturb
        rw [if_pos hq]
      obtain ⟨i1, i2, i3, i4⟩ := ih (t_base + 1 / 4) (TotalTime + dt) (n0 + 1)
        (by rw [h0]; push_cast; ring) (by linarith) (by linarith [hdt.2]) hrest
      simp only [disturbRun, hd, Option.isSome_some, if_true, List.sum_cons]
      refine ⟨?_, i2, i3, ?_⟩
      · rw [i1]; push_cast; ring
      · rw [i4]; ring
    · have hd : UpdateWaves.disturb mWaves rnd t_base (TotalTime + dt) = (t_base, none) := by
        unfold UpdateWaves.disturb
        rw [if_neg hq]
      obtain ⟨i1, i2, i3, i4⟩ := ih t_base (TotalTime + dt) n0 h0
        (by linarith [hdt.1]) (by linarith) hrest
      simp only [disturbRun, hd, Option.isSome_none, Bool.false_eq_true, if_false,
        List.sum_cons, Nat.zero_add]
      refine ⟨i1, i2, i3, ?_⟩
      rw [i4]; ring

/-- The vertex loop started at index `i` with `left` iterations to go, on a
buffer of at least `i + left` cells: it returns, logs `i, ..., i + left - 1`,
fills exactly those cells and leaves the cells below `i` alone. -/
theorem UpdateWaves_loop_spec (mWaves : Waves) :
    ∀ (left i : Nat) (buf : UploadBuffer) (written : List Nat),
      i + left ≤ buf.cells.length →
      ∃ buf1, UpdateWaves.loop mWaves left i buf written =
          some (buf1, written ++ List.range' i left) ∧
        buf1.cells.length = buf.cells.length ∧
        (∀ j, i ≤ j → j < i + left →
          buf1.cells[j]? = some (some (UpdateWaves.vertex mWaves j))) ∧
        (∀ j, j < i → buf1.cells[j]? = buf.cells[j]?) ∧
        (∀ j, i + left ≤ j → buf1.cells[j]? = buf.cells[j]?) := by
  intro left
  induction left with
  | zero =>
    intro i buf written _
    refine ⟨buf, by simp [UpdateWaves.loop], rfl, ?_, fun _ _ => rfl, fun _ _ => rfl⟩
    intro j h1 h2
    omega
  | succ n ih =>
    intro i buf written hlen
    have hi : i < buf.cells.length := by omega
    have hcopy : buf.CopyData i (UpdateWaves.vertex mWaves i) =
        some { cells := buf.cells.set i (some (UpdateWaves.vertex mWaves i)) } := by
      simp [UploadBuffer.CopyData, hi]
    obtain ⟨buf1, h1, h2, h3, h4, h5⟩ :=
      ih (i + 1) { cells := buf.cells.set i (some (UpdateWaves.vertex mWaves i)) }
        (written ++ [i]) (by simp only [List.length_set]; omega)
    simp only [List.length_set] at h2
    refine ⟨buf1, ?_, h2, ?_, ?_, ?_⟩
    · rw [UpdateWaves.loop, hcopy]
      simp only [h1, List.append_assoc, List.singleton_append, List.range'_succ]
    · intro j hj1 hj2
      by_cases hji : j = i
      · subst hji
        rw [h4 j (by omega)]
        simp [List.getElem?_set, hi]
      · exact h3 j (by omega) (by omega)
    · intro j hj
      rw [h4 j (by omega)]
      simp only
      rw [List.getElem?_set_ne (by omega)]
    · intro j hj
      rw [h5 j (by omega)]
      simp only
      rw [List.getElem?_set_ne (by omega)]

/-! ### Claims about `UpdateWaves` -/

/-- C7 (disturbance indices are pre-clamped by the caller).  Assume that
`MathHelper::Rand(a, b)` returns an integer in `[a, b]` whenever `a ≤ b`.  Then
for every grid with at least 9 rows and 9 columns, every `(i, j)` that
`UpdateWaves` passes to `Waves::Disturb` satisfies `2 ≤ i ≤ rows - 3` and
`2 ≤ j ≤ cols - 3`. -/
theorem disturbance_indices_preclamped (mWaves : Waves) (rnd : RandomDraws)
    (t_base TotalTime : ℚ)
    (hI : ∀ a b, a ≤ b → a ≤ rnd.RandI a b ∧ rnd.RandI a b ≤ b)
    (hJ : ∀ a b, a ≤ b → a ≤ rnd.RandJ a b ∧ rnd.RandJ a b ≤ b)
    (hrows : 9 ≤ mWaves.RowCount) (hcols : 9 ≤ mWaves.ColumnCount)
    (i j : Int) (r : ℚ)
    (hd : (UpdateWaves.disturb mWaves rnd t_base TotalTime).2 = some (i, j, r)) :
    2 ≤ i ∧ i ≤ mWaves.RowCount - 3 ∧ 2 ≤ j ∧ j ≤ mWaves.ColumnCount - 3 := by
  unfold UpdateWaves.disturb at hd
  split_ifs at hd with hq
  · simp only [Option.some.injEq, Prod.mk.injEq] at hd
    obtain ⟨h1, h2, -⟩ := hd
    have hi := hI 4 (mWaves.RowCount - 5) (by omega)
    have hj := hJ 4 (mWaves.ColumnCount - 5) (by omega)
    rw [h1] at hi
    rw [h2] at hj
    omega

/-- Witness for C7: the reference grid of 128 by 128 vertices, a quarter second
after start, with a random source that returns its lower bound. -/
theorem disturbance_indices_preclamped_witness :
    (2 : Int) ≤ 4 ∧ (4 : Int) ≤ (sampleWaves 128 128).RowCount - 3 ∧
    (2 : Int) ≤ 4 ∧ (4 : Int) ≤ (sampleWaves 128 128).ColumnCount - 3 :=
  disturbance_indices_preclamped (sampleWaves 128 128) sampleDraws 0 (1 / 4)
    (fun _ _ h => ⟨le_refl _, h⟩) (fun _ _ h => ⟨le_refl _, h⟩)
    (by simp [sampleWaves]) (by simp [sampleWaves]) 4 4 (1 / 5)
    (by simp [UpdateWaves.disturb, sampleDraws])

/-- C8 (fixed disturbance cadence).  With exact (rational) time, `t_base` and
the total time both starting at 0, and every frame taking a positive time of at
most a quarter second, after every run of frames the total time is the sum of
the frame times and the number of `Disturb` calls made by `UpdateWaves` so far
equals `floor (TotalTime / 0.25)`. -/
theorem disturbance_cadence (mWaves : Waves) (rnd : RandomDraws) (ticks : List ℚ)
    (hticks : ∀ dt ∈ ticks, 0 < dt ∧ dt ≤ 1 / 4) :
    (disturbRun mWaves rnd 0 0 ticks).2.1 = ticks.sum ∧
    ((disturbRun mWaves rnd 0 0 ticks).2.2 : Int) =
      Int.floor ((disturbRun mWaves rnd 0 0 ticks).2.1 / (1 / 4)) := by
  obtain ⟨h1, h2, h3, h4⟩ :=
    disturbRun_spec mWaves rnd ticks 0 0 0 (by simp) (le_refl _) (by norm_num) hticks
  refine ⟨by rw [h4, zero_add], ?_⟩
  symm
  rw [Int.floor_eq_iff]
  rw [h1] at h2 h3
  simp only [Nat.cast_zero, zero_add] at h2 h3
  push_cast
  constructor <;> linarith

/-- Witness for C8: frames of 1/4, 1/8, 1/8 and 1/4 second. -/
theorem disturbance_cadence_witness :
    (disturbRun (sampleWaves 128 128) sampleDraws 0 0 [1 / 4, 1 / 8, 1 / 8, 1 / 4]).2.1 =
      ([1 / 4, 1 / 8, 1 / 8, 1 / 4] : List ℚ).sum ∧
    ((disturbRun (sampleWaves 128 128) sampleDraws 0 0 [1 / 4, 1 / 8, 1 / 8, 1 / 4]).2.2 : Int) =
      Int.floor
        ((disturbRun (sampleWaves 128 128) sampleDraws 0 0 [1 / 4, 1 / 8, 1 / 8, 1 / 4]).2.1
          / (1 / 4)) :=
  disturbance_cadence (sampleWaves 128 128) sampleDraws [1 / 4, 1 / 8, 1 / 8, 1 / 4]
    (by
      intro dt hdt
      simp only [List.mem_cons, List.mem_singleton, List.not_mem_nil, or_false] at hdt
      rcases hdt with h | h | h | h <;> rw [h] <;> norm_num)

/-- C9 (UV mapping).  Over exact arithmetic, for every width `w > 0` and depth
`d > 0` and every vertex whose position has `x` in `[-w/2, w/2]` and `z` in
`[-d/2, d/2]`, the texture coordinate written by `UpdateWaves` is
`u = 1/2 + x/w`, `v = 1/2 - z/d`; both lie in `[0, 1]`; `u` is 0 at `x = -w/2`
and 1 at `x = w/2`; and, mirrored on the depth axis, `v` is 0 at `z = d/2` and 1
at `z = -d/2`. -/
theorem uv_mapping (mWaves : Waves) (i : Nat)
    (hw : 0 < mWaves.Width) (hd : 0 < mWaves.Depth)
    (hx1 : -(mWaves.Width / 2) ≤ (mWaves.Position i).x)
    (hx2 : (mWaves.Position i).x ≤ mWaves.Width / 2)
    (hz1 : -(mWaves.Depth / 2) ≤ (mWaves.Position i).z)
    (hz2 : (mWaves.Position i).z ≤ mWaves.Depth / 2) :
    (UpdateWaves.vertex mWaves i).TexC.x = 1 / 2 + (mWaves.Position i).x / mWaves.Width ∧
    (UpdateWaves.vertex mWaves i).TexC.y = 1 / 2 - (mWaves.Position i).z / mWaves.Depth ∧
    0 ≤ (UpdateWaves.vertex mWaves i).TexC.x ∧ (UpdateWaves.vertex mWaves i).TexC.x ≤ 1 ∧
    0 ≤ (UpdateWaves.vertex mWaves i).TexC.y ∧ (UpdateWaves.vertex mWaves i).TexC.y ≤ 1 ∧
    ((mWaves.Position i).x = -(mWaves.Width / 2) → (UpdateWaves.vertex mWaves i).TexC.x = 0) ∧
    ((mWaves.Position i).x = mWaves.Width / 2 → (UpdateWaves.vertex mWaves i).TexC.x = 1) ∧
    ((mWaves.Position i).z = mWaves.Depth / 2 → (UpdateWaves.vertex mWaves i).TexC.y = 0) ∧
    ((mWaves.Position i).z = -(mWaves.Depth / 2) → (UpdateWaves.vertex mWaves i).TexC.y = 1) := by
  have hu1 : -(1 / 2) ≤ (mWaves.Position i).x / mWaves.Width := by
    rw [le_div_iff₀ hw]; linarith
  have hu2 : (mWaves.Position i).x / mWaves.Width ≤ 1 / 2 := by
    rw [div_le_iff₀ hw]; linarith
  have hv1 : -(1 / 2) ≤ (mWaves.Position i).z / mWaves.Depth := by
    rw [le_div_iff₀ hd]; linarith
  have hv2 : (mWaves.Position i).z / mWaves.Depth ≤ 1 / 2 := by
    rw [div_le_iff₀ hd]; linarith
  have hw0 : mWaves.Width ≠ 0 := ne_of_gt hw
  have hd0 : mWaves.Depth ≠ 0 := ne_of_gt hd
  have hW : mWaves.Width / 2 / mWaves.Width = 1 / 2 := by field_simp; ring
  have hD : mWaves.Depth / 2 / mWaves.Depth = 1 / 2 := by field_simp; ring
  have hu : (UpdateWaves.vertex mWaves i).TexC.x =
      1 / 2 + (mWaves.Position i).x / mWaves.Width := rfl
  have hv : (UpdateWaves.vertex mWaves i).TexC.y =
      1 / 2 - (mWaves.Position i).z / mWaves.Depth := rfl
  refine ⟨hu, hv, by linarith, by linarith, by linarith, by linarith, ?_, ?_, ?_, ?_⟩
  · intro h; rw [hu, h, neg_div, hW]; norm_num
  · intro h; rw [hu, h, hW]; norm_num
  · intro h; rw [hv, h, hD]; norm_num
  · intro h; rw [hv, h, neg_div, hD]; norm_num

/-- Witness for C9: vertex 0 of a 3 by 3 sample grid, at `x = -1`, `z = 1`. -/
theorem uv_mapping_witness :
    (UpdateWaves.vertex (sampleWaves 3 3) 0).TexC.x =
      1 / 2 + ((sampleWaves 3 3).Position 0).x / (sampleWaves 3 3).Width ∧
    (UpdateWaves.vertex (sampleWaves 3 3) 0).TexC.y =
      1 / 2 - ((sampleWaves 3 3).Position 0).z / (sampleWaves 3 3).Depth ∧
    0 ≤ (UpdateWaves.vertex (sampleWaves 3 3) 0).TexC.x ∧
    (UpdateWaves.vertex (sampleWaves 3 3) 0).TexC.x ≤ 1 ∧
    0 ≤ (UpdateWaves.vertex (sampleWaves 3 3) 0).TexC.y ∧
    (UpdateWaves.vertex (sampleWaves 3 3) 0).TexC.y ≤ 1 ∧
    (((sampleWaves 3 3).Position 0).x = -((sampleWaves 3 3).Width / 2) →
      (UpdateWaves.vertex (sampleWaves 3 3) 0).TexC.x = 0) ∧
    (((sampleWaves 3 3).Position 0).x = (sampleWaves 3 3).Width / 2 →
      (UpdateWaves.vertex (sampleWaves 3 3) 0).TexC.x = 1) ∧
    (((sampleWaves 3 3).Position 0).z = (sampleWaves 3 3).Depth / 2 →
      (UpdateWaves.vertex (sampleWaves 3 3) 0).TexC.y = 0) ∧
    (((sampleWaves 3 3).Position 0).z = -((sampleWaves 3 3).Depth / 2) →
      (UpdateWaves.vertex (sampleWaves 3 3) 0).TexC.y = 1) :=
  uv_mapping (sampleWaves 3 3) 0 (by norm_num [sampleWaves]) (by norm_num [sampleWaves])
    (by norm_num [sampleWaves]) (by norm_num [sampleWaves])
    (by norm_num [sampleWaves]) (by norm_num [sampleWaves])

/-- C10 (complete, in-bounds vertex write).  `BuildFrameResource` builds `N`
frame resources, each with a wave buffer of exactly `VertexCount` elements.  On
any wave buffer of that capacity (so in every frame, whichever frame resource
is current and whatever it held before), `UpdateWaves` returns, passes to
`CopyData` exactly the indices `0, ..., VertexCount - 1`, each once and each
below the capacity of the buffer, leaves the capacity unchanged, and cell `i`
then holds the vertex built for index `i`. -/
theorem complete_in_bounds_vertex_write (N : Nat) (mWaves : Waves) (rnd : RandomDraws)
    (t_base TotalTime : ℚ) (currWavesVB : UploadBuffer)
    (hcap : currWavesVB.elementCount = mWaves.VertexCount) :
    (BuildFrameResource N mWaves.VertexCount).length = N ∧
    (∀ fr ∈ BuildFrameResource N mWaves.VertexCount,
      fr.WavesVB.elementCount = mWaves.VertexCount) ∧
    ∃ res, BlendApp.UpdateWaves mWaves rnd t_base TotalTime currWavesVB = some res ∧
      res.written = List.range mWaves.VertexCount ∧
      (∀ i, i < mWaves.VertexCount → res.written.count i = 1) ∧
      (∀ i, mWaves.VertexCount ≤ i → res.written.count i = 0) ∧
      (∀ i ∈ res.written, i < currWavesVB.elementCount) ∧
      res.WavesVB.elementCount = mWaves.VertexCount ∧
      ∀ i, i < mWaves.VertexCount →
        res.WavesVB.cells[i]? = some (some (UpdateWaves.vertex mWaves i)) := by
  unfold UploadBuffer.elementCount at hcap
  refine ⟨by simp [BuildFrameResource_eq], ?_, ?_⟩
  · intro fr hfr
    rw [BuildFrameResource_eq] at hfr
    rw [List.eq_of_mem_replicate hfr]
    simp [FrameResource.ctor, UploadBuffer.create, UploadBuffer.elementCount]
  · obtain ⟨buf1, h1, h2, h3, -, -⟩ :=
      UpdateWaves_loop_spec mWaves mWaves.VertexCount 0 currWavesVB [] (by omega)
    simp only [List.nil_append, ← List.range_eq_range'] at h1
    refine ⟨{ t_base := (UpdateWaves.disturb mWaves rnd t_base TotalTime).1
              Disturb := (UpdateWaves.disturb mWaves rnd t_base TotalTime).2
              WavesVB := buf1
              written := List.range mWaves.VertexCount }, ?_, rfl, ?_, ?_, ?_, ?_, ?_⟩
    · simp [BlendApp.UpdateWaves, h1]
    · intro i hi
      exact List.count_eq_one_of_mem (List.nodup_range _) (List.mem_range.2 hi)
    · intro i hi
      exact List.count_eq_zero_of_not_mem (by simp only [List.mem_range]; omega)
    · intro i hi
      simp only [List.mem_range] at hi
      unfold UploadBuffer.elementCount
      omega
    · unfold UploadBuffer.elementCount
      simp only
      omega
    · intro i hi
      exact h3 i (by omega) (by omega)

/-- Witness for C10: a ring of three for a 2 by 2 sample grid, writing into a
buffer of four elements. -/
theorem complete_in_bounds_vertex_write_witness :
    (BuildFrameResource 3 (sampleWaves 2 2).VertexCount).length = 3 ∧
    (∀ fr ∈ BuildFrameResource 3 (sampleWaves 2 2).VertexCount,
      fr.WavesVB.elementCount = (sampleWaves 2 2).VertexCount) ∧
    ∃ res, BlendApp.UpdateWaves (sampleWaves 2 2) sampleDraws 0 (1 / 4)
        (UploadBuffer.create 4) = some res ∧
      res.written = List.range (sampleWaves 2 2).VertexCount ∧
      (∀ i, i < (sampleWaves 2 2).VertexCount → res.written.count i = 1) ∧
      (∀ i, (sampleWaves 2 2).VertexCount ≤ i → res.written.count i = 0) ∧
      (∀ i ∈ res.written, i < (UploadBuffer.create 4).elementCount) ∧
      res.WavesVB.elementCount = (sampleWaves 2 2).VertexCount ∧
      ∀ i, i < (sampleWaves 2 2).VertexCount →
        res.WavesVB.cells[i]? = some (some (UpdateWaves.vertex (sampleWaves 2 2) i)) :=
  complete_in_bounds_vertex_write 3 (sampleWaves 2 2) sampleDraws 0 (1 / 4)
    (UploadBuffer.create 4) (by decide)

/-! ### The fence values held by the ring -/

/-- Without wrap-around, the fence value of every frame resource `k` frames
after a fresh start, by the age of the frame resource. -/
theorem RingInv_fence {N c0 k : Nat} {app : BlendApp} (hinv : RingInv N c0 k app)
    (hwrap : c0 + k < UINT64_MOD) {s : Nat} {fr : FrameResource}
    (hfr : app.mFrameResources[s]? = some fr) :
    s < N ∧
    fr.Fence =
      if slotAge N app.mCurrFrameResourceIndex s < k then
        c0 + (k - slotAge N app.mCurrFrameResourceIndex s)
      else 0 := by
  obtain ⟨hlen, -, -, hslots⟩ := hinv
  have hs : s < N := by
    by_contra hge
    rw [List.getElem?_eq_none (by omega)] at hfr
    cases hfr
  obtain ⟨fr2, hfr2, hval⟩ := hslots s hs
  rw [hfr] at hfr2
  cases hfr2
  refine ⟨hs, ?_⟩
  rw [hval]
  split_ifs with h
  · exact Nat.mod_eq_of_lt (by omega)
  · rfl

/-- Two different frame resources never hold the same nonzero fence value. -/
theorem RingInv_fence_distinct {N c0 k : Nat} {app : BlendApp} (hinv : RingInv N c0 k app)
    (hwrap : c0 + k < UINT64_MOD) {s1 s2 : Nat} {fr1 fr2 : FrameResource} (hne : s1 ≠ s2)
    (h1 : app.mFrameResources[s1]? = some fr1) (h2 : app.mFrameResources[s2]? = some fr2)
    (hnz : fr1.Fence ≠ 0) : fr1.Fence ≠ fr2.Fence := by
  have hidx := hinv.2.1
  obtain ⟨hs1, hv1⟩ := RingInv_fence hinv hwrap h1
  obtain ⟨hs2, hv2⟩ := RingInv_fence hinv hwrap h2
  rw [hv1] at hnz ⊢
  rw [hv2]
  unfold slotAge at hnz ⊢
  split_ifs at hnz ⊢ <;> omega

/-- Every value `c0 + j` with `j` among the last `min k N` submits is held by
some frame resource. -/
theorem RingInv_fence_held {N c0 k : Nat} {app : BlendApp} (hinv : RingInv N c0 k app)
    (hwrap : c0 + k < UINT64_MOD) (t : Nat) (hlo1 : c0 + 1 ≤ t) (hlo2 : c0 + k + 1 ≤ t + N)
    (hhi : t ≤ c0 + k) :
    ∃ (s : Nat) (fr : FrameResource), app.mFrameResources[s]? = some fr ∧ fr.Fence = t := by
  obtain ⟨hlen, hidx, -, hslots⟩ := hinv
  obtain ⟨s, hsdef⟩ : ∃ s, s = if c0 + k - t ≤ app.mCurrFrameResourceIndex
      then app.mCurrFrameResourceIndex - (c0 + k - t)
      else app.mCurrFrameResourceIndex + N - (c0 + k - t) := ⟨_, rfl⟩
  have hs : s < N := by
    rw [hsdef]
    split_ifs <;> omega
  have hage : slotAge N app.mCurrFrameResourceIndex s = c0 + k - t := by
    rw [hsdef]
    unfold slotAge
    split_ifs <;> omega
  obtain ⟨fr, hfr, hval⟩ := hslots s hs
  refine ⟨s, fr, hfr, ?_⟩
  rw [hval, hage, if_pos (by omega), Nat.mod_eq_of_lt (by omega)]
  omega

/-- C13 as stated fails: on a fresh ring of one frame resource whose counter
stands at `2 ^ 64 - 1`, the submit of the first frame wraps the counter to 0 and
stores 0.  After that frame (`k = N = 1`) the ring holds no nonzero fence value,
although the stated set, from `c0 + max 1 (k - N + 1)` to `c0 + k`, contains
`2 ^ 64`; and the frame resource targeted by the next `Update` holds 0, not
`c0 + k - N + 1 = 2 ^ 64`. -/
theorem ring_holds_most_recent_tokens_as_stated_fails :
    (BlendApp.fresh 1 0 0 (UINT64_MOD - 1)).run 1 [⟨UINT64_MOD - 1, UINT64_MOD - 1⟩] =
      some (⟨[⟨0, ⟨[]⟩⟩], 0, 0⟩, [0]) ∧
    ¬ (UINT64_MOD ∈ ((BlendApp.mk [⟨0, ⟨[]⟩⟩] 0 0).mFrameResources.map
          (fun fr => fr.Fence)).filter (fun t => t != 0) ↔
        (UINT64_MOD - 1) + max 1 (1 + 1 - 1) ≤ UINT64_MOD ∧
        UINT64_MOD ≤ (UINT64_MOD - 1) + 1) ∧
    ¬ (∃ fr, (BlendApp.mk [⟨0, ⟨[]⟩⟩] 0 0).mFrameResources[
          nextFrameResourceIndex 1 (BlendApp.mk [⟨0, ⟨[]⟩⟩] 0 0).mCurrFrameResourceIndex]?
          = some fr ∧
        fr.Fence = (UINT64_MOD - 1) + 1 - 1 + 1) := by
  refine ⟨by decide, by decide, ?_⟩
  rintro ⟨fr, hfr, hval⟩
  have h0 : fr = ⟨0, ⟨[]⟩⟩ := by
    have h : (BlendApp.mk [⟨0, ⟨[]⟩⟩] 0 0).mFrameResources[
        nextFrameResourceIndex 1 (BlendApp.mk [⟨0, ⟨[]⟩⟩] 0 0).mCurrFrameResourceIndex]?
        = some ⟨0, ⟨[]⟩⟩ := by decide
    rw [h] at hfr
    exact (Option.some.inj hfr).symm
  rw [h0] at hval
  revert hval
  decide

/-- C13, amended (the ring holds the most recent fence values).  For every
`N ≥ 1`, start from a fresh ring (every fence value 0) with counter `c0` and run
`k` frames (`Update` then `Draw`) absent 64-bit wrap-around of the counter
(`c0 + k < 2 ^ 64`).  Then the list of nonzero fence
values held by the frame resources has no duplicates, its members are exactly
the values from `c0 + max 1 (k - N + 1)` to `c0 + k`, and, when `k ≥ N`, the
frame resource targeted by the next `Update` holds the smallest of them,
`c0 + k - N + 1`. -/
theorem ring_holds_most_recent_tokens (N waveVertCount index0 c0 : Nat) (hN : 1 ≤ N)
    (hi : index0 < N) (ticks : List FenceObs) (hwrap : c0 + ticks.length < UINT64_MOD)
    (app : BlendApp) (fences : List Nat)
    (hrun : (BlendApp.fresh N waveVertCount index0 c0).run N ticks = some (app, fences)) :
    app.mFrameResources.length = N ∧
    ((app.mFrameResources.map (fun fr => fr.Fence)).filter (fun t => t != 0)).Nodup ∧
    (∀ t, t ∈ (app.mFrameResources.map (fun fr => fr.Fence)).filter (fun t => t != 0) ↔
      c0 + max 1 (ticks.length + 1 - N) ≤ t ∧ t ≤ c0 + ticks.length) ∧
    (N ≤ ticks.length →
      ∃ fr, app.mFrameResources[nextFrameResourceIndex N app.mCurrFrameResourceIndex]?
          = some fr ∧
        fr.Fence = c0 + ticks.length - N + 1) := by
  obtain ⟨hinv, -⟩ := RingInv_run ticks 0 _ _ _ (RingInv_fresh hi (by omega)) hrun
  simp only [Nat.zero_add] at hinv
  have hidx := hinv.2.1
  refine ⟨hinv.1, ?_, ?_, ?_⟩
  · have hpw : List.Pairwise (fun a b => a ≠ 0 → a ≠ b)
        (app.mFrameResources.map (fun fr => fr.Fence)) := by
      rw [List.pairwise_iff_getElem]
      intro i j hi hj hij
      simp only [List.length_map] at hi hj
      simp only [List.getElem_map]
      exact RingInv_fence_distinct hinv hwrap (Nat.ne_of_lt hij)
        (List.getElem?_eq_getElem hi) (List.getElem?_eq_getElem hj)
    refine (hpw.filter _).imp_of_mem ?_
    intro a b ha _ hab
    have hnz : a ≠ 0 := by simpa using (List.mem_filter.1 ha).2
    exact hab hnz
  · intro t
    simp only [List.mem_filter, List.mem_map, bne_iff_ne, ne_eq]
    constructor
    · rintro ⟨⟨fr, hmem, rfl⟩, hnz⟩
      obtain ⟨s, hs⟩ := List.mem_iff_getElem?.1 hmem
      obtain ⟨hsN, hval⟩ := RingInv_fence hinv hwrap hs
      have hage : slotAge N app.mCurrFrameResourceIndex s < N := by
        unfold slotAge
        split_ifs <;> omega
      rw [hval] at hnz ⊢
      split_ifs at hnz ⊢ with h
      · omega
      · exact absurd rfl hnz
    · rintro ⟨hlo, hhi⟩
      obtain ⟨s, fr, hfr, hval⟩ :=
        RingInv_fence_held hinv hwrap t (by omega) (by omega) hhi
      exact ⟨⟨fr, List.mem_iff_getElem?.2 ⟨s, hfr⟩, hval⟩, by omega⟩
  · intro hk
    obtain ⟨-, -, -, hslots⟩ := hinv
    obtain ⟨fr, hfr, hval⟩ := hslots _ (nextFrameResourceIndex_lt _ hN)
    refine ⟨fr, hfr, ?_⟩
    rw [hval, slotAge_target hidx, if_pos (by omega), Nat.mod_eq_of_lt (by omega)]
    omega

/-- Witness for C13 (amended): four frames on a fresh ring of three with counter 1; the
ring then holds 3, 4, 5 and the next `Update` targets the one holding 3. -/
theorem ring_holds_most_recent_tokens_witness :
    (BlendApp.mk [⟨5, ⟨[]⟩⟩, ⟨3, ⟨[]⟩⟩, ⟨4, ⟨[]⟩⟩] 0 5).mFrameResources.length = 3 ∧
    (((BlendApp.mk [⟨5, ⟨[]⟩⟩, ⟨3, ⟨[]⟩⟩, ⟨4, ⟨[]⟩⟩] 0 5).mFrameResources.map
      (fun fr => fr.Fence)).filter (fun t => t != 0)).Nodup ∧
    (∀ t, t ∈ ((BlendApp.mk [⟨5, ⟨[]⟩⟩, ⟨3, ⟨[]⟩⟩, ⟨4, ⟨[]⟩⟩] 0 5).mFrameResources.map
        (fun fr => fr.Fence)).filter (fun t => t != 0) ↔
      1 + max 1 (([⟨1, 1⟩, ⟨1, 1⟩, ⟨1, 1⟩, ⟨2, 2⟩] : List FenceObs).length + 1 - 3) ≤ t ∧
      t ≤ 1 + ([⟨1, 1⟩, ⟨1, 1⟩, ⟨1, 1⟩, ⟨2, 2⟩] : List FenceObs).length) ∧
    (3 ≤ ([⟨1, 1⟩, ⟨1, 1⟩, ⟨1, 1⟩, ⟨2, 2⟩] : List FenceObs).length →
      ∃ fr, (BlendApp.mk [⟨5, ⟨[]⟩⟩, ⟨3, ⟨[]⟩⟩, ⟨4, ⟨[]⟩⟩] 0 5).mFrameResources[
          nextFrameResourceIndex 3
            (BlendApp.mk [⟨5, ⟨[]⟩⟩, ⟨3, ⟨[]⟩⟩, ⟨4, ⟨[]⟩⟩] 0 5).mCurrFrameResourceIndex]?
          = some fr ∧
        fr.Fence = 1 + ([⟨1, 1⟩, ⟨1, 1⟩, ⟨1, 1⟩, ⟨2, 2⟩] : List FenceObs).length - 3 + 1) :=
  ring_holds_most_recent_tokens 3 0 2 1 (by decide) (by decide)
    [⟨1, 1⟩, ⟨1, 1⟩, ⟨1, 1⟩, ⟨2, 2⟩] (by decide)
    ⟨[⟨5, ⟨[]⟩⟩, ⟨3, ⟨[]⟩⟩, ⟨4, ⟨[]⟩⟩], 0, 5⟩ [2, 3, 4, 5] (by decide)

/-! ### Claims about the order of operations in a frame -/

/-- The vertex loop, when it returns, has logged `i, ..., i + left - 1`. -/
theorem UpdateWaves_loop_written (mWaves : Waves) :
    ∀ (left i : Nat) (buf buf1 : UploadBuffer) (written written1 : List Nat),
      UpdateWaves.loop mWaves left i buf written = some (buf1, written1) →
      written1 = written ++ List.range' i left := by
  intro left
  induction left with
  | zero =>
    intro i buf buf1 written written1 h
    simp [UpdateWaves.loop] at h
    simp [h.2]
  | succ n ih =>
    intro i buf buf1 written written1 h
    rw [UpdateWaves.loop] at h
    cases hc : buf.CopyData i (UpdateWaves.vertex mWaves i) with
    | none => simp [hc] at h
    | some b =>
      simp only [hc] at h
      rw [ih (i + 1) b buf1 (written ++ [i]) written1 h]
      simp [List.range'_succ]

/-- What a returning `UpdateWaves` leaves behind. -/
theorem UpdateWaves_some {mWaves : Waves} {rnd : RandomDraws} {t_base TotalTime : ℚ}
    {buf : UploadBuffer} {res : WavesFrame}
    (h : BlendApp.UpdateWaves mWaves rnd t_base TotalTime buf = some res) :
    res.t_base = (UpdateWaves.disturb mWaves rnd t_base TotalTime).1 ∧
    res.Disturb = (UpdateWaves.disturb mWaves rnd t_base TotalTime).2 ∧
    res.written = List.range mWaves.VertexCount := by
  unfold BlendApp.UpdateWaves at h
  simp only at h
  cases hl : UpdateWaves.loop mWaves mWaves.VertexCount 0 buf [] with
  | none => simp [hl] at h
  | some r =>
    obtain ⟨b, w⟩ := r
    simp only [hl, Option.some.injEq] at h
    have hw := UpdateWaves_loop_written mWaves _ _ _ _ _ _ hl
    subst h
    simp only [List.nil_append] at hw
    exact ⟨rfl, rfl, by rw [hw, List.range_eq_range']⟩

/-- C11 as stated fails: in a frame on a fresh ring of three for a 2 by 2 grid,
a quarter second after start, the operations are acquire, disturb, simulator
update, four vertex writes, submit; the simulator update does not come before
the acquire. -/
theorem tick_ordering_as_stated_fails :
    ((BlendApp.fresh 3 4 0 1).frame 3 ⟨1, 1⟩ (sampleWaves 2 2) sampleDraws 0 (1 / 4)
        (1 / 30)).map (fun r => r.2.2) =
      some [FrameEvent.Acquire 1, FrameEvent.Disturb 4 4 (1 / 5),
        FrameEvent.WavesUpdate (1 / 30), FrameEvent.CopyData 0, FrameEvent.CopyData 1,
        FrameEvent.CopyData 2, FrameEvent.CopyData 3, FrameEvent.Submit 2] ∧
    ¬ (List.findIdx FrameEvent.isWavesUpdate
          [FrameEvent.Acquire 1, FrameEvent.Disturb 4 4 (1 / 5),
            FrameEvent.WavesUpdate (1 / 30), FrameEvent.CopyData 0, FrameEvent.CopyData 1,
            FrameEvent.CopyData 2, FrameEvent.CopyData 3, FrameEvent.Submit 2] <
        List.findIdx FrameEvent.isAcquire
          [FrameEvent.Acquire 1, FrameEvent.Disturb 4 4 (1 / 5),
            FrameEvent.WavesUpdate (1 / 30), FrameEvent.CopyData 0, FrameEvent.CopyData 1,
            FrameEvent.CopyData 2, FrameEvent.CopyData 3, FrameEvent.Submit 2]) := by
  constructor
  · have hd : UpdateWaves.disturb (sampleWaves 2 2) sampleDraws 0 (1 / 4) =
        (1 / 4, some (4, 4, 1 / 5)) := by
      norm_num [UpdateWaves.disturb, sampleDraws]
    have hvc : (sampleWaves 2 2).VertexCount = 4 := rfl
    simp only [one_div] at hd
    simp [BlendApp.frame, BlendApp.Update, BlendApp.Draw, BlendApp.fresh, BuildFrameResource,
      BuildFrameResource.loop, FrameResource.ctor, UploadBuffer.create,
      nextFrameResourceIndex, waitCondition, BlendApp.UpdateWaves, UpdateWaves.loop,
      UploadBuffer.CopyData, UpdateWaves.events, hd, hvc, UINT64_MOD]
  · decide

/-- C11, amended (order of operations in a frame).  In every frame that runs to
its end the operations occur in the order: ring acquire (frame-resource block
of `Update`), then inside `UpdateWaves` the optional disturb, the simulator
update and the vertex writes `0, ..., VertexCount - 1` into the acquired frame
resource, then the submit at the end of `Draw`.  In particular the ring acquire
comes before the simulator update. -/
theorem tick_ordering (N : Nat) (app : BlendApp) (obs : FenceObs) (mWaves : Waves)
    (rnd : RandomDraws) (t_base TotalTime DeltaTime : ℚ)
    (app1 : BlendApp) (t_base1 : ℚ) (events : List FrameEvent)
    (h : app.frame N obs mWaves rnd t_base TotalTime DeltaTime = some (app1, t_base1, events)) :
    events =
      [FrameEvent.Acquire (nextFrameResourceIndex N app.mCurrFrameResourceIndex)] ++
      (match (UpdateWaves.disturb mWaves rnd t_base TotalTime).2 with
        | some (i, j, r) => [FrameEvent.Disturb i j r]
        | none => []) ++
      [FrameEvent.WavesUpdate DeltaTime] ++
      (List.range mWaves.VertexCount).map FrameEvent.CopyData ++
      [FrameEvent.Submit ((app.mCurrentFence + 1) % UINT64_MOD)] ∧
    app1.mCurrFrameResourceIndex = nextFrameResourceIndex N app.mCurrFrameResourceIndex ∧
    List.findIdx FrameEvent.isAcquire events < List.findIdx FrameEvent.isWavesUpdate events := by
  unfold BlendApp.frame at h
  cases hu : app.Update N obs with
  | none => simp [hu] at h
  | some r =>
    obtain ⟨appu, completed⟩ := r
    simp only [hu] at h
    obtain ⟨hu1, -, -⟩ := Update_some hu
    cases hfr : appu.mFrameResources[appu.mCurrFrameResourceIndex]? with
    | none => simp [hfr] at h
    | some fr =>
      simp only [hfr] at h
      cases hw : BlendApp.UpdateWaves mWaves rnd t_base TotalTime fr.WavesVB with
      | none => simp [hw] at h
      | some res =>
        simp only [hw] at h
        obtain ⟨-, hres2, hres3⟩ := UpdateWaves_some hw
        cases hd : BlendApp.Draw
            { appu with
              mFrameResources :=
                appu.mFrameResources.set appu.mCurrFrameResourceIndex
                  { fr with WavesVB := res.WavesVB } } with
        | none => simp [hd] at h
        | some q =>
          obtain ⟨app3, fence⟩ := q
          simp only [hd, Option.some.injEq, Prod.mk.injEq] at h
          obtain ⟨h1, -, h3⟩ := h
          obtain ⟨hf, fr2, -, hd1⟩ := Draw_some hd
          have hidx : appu.mCurrFrameResourceIndex =
              nextFrameResourceIndex N app.mCurrFrameResourceIndex := by rw [hu1]
          have hctr : appu.mCurrentFence = app.mCurrentFence := by rw [hu1]
          simp only at hf
          have hev : events =
              [FrameEvent.Acquire (nextFrameResourceIndex N app.mCurrFrameResourceIndex)] ++
              (match (UpdateWaves.disturb mWaves rnd t_base TotalTime).2 with
                | some (i, j, r) => [FrameEvent.Disturb i j r]
                | none => []) ++
              [FrameEvent.WavesUpdate DeltaTime] ++
              (List.range mWaves.VertexCount).map FrameEvent.CopyData ++
              [FrameEvent.Submit ((app.mCurrentFence + 1) % UINT64_MOD)] := by
            rw [← h3, hf, hctr, hidx]
            simp only [UpdateWaves.events, hres2, hres3, List.append_assoc]
          refine ⟨hev, ?_, ?_⟩
          · rw [← h1, hd1]
            exact hidx
          · rw [hev]
            simp only [List.singleton_append, List.cons_append, List.findIdx_cons,
              FrameEvent.isAcquire, FrameEvent.isWavesUpdate]
            simp

/-- Witness for C11 (amended): a frame on a fresh ring of three for a grid of
one vertex, a quarter second after start. -/
theorem tick_ordering_witness :
    [FrameEvent.Acquire 1, FrameEvent.Disturb 4 4 (1 / 5), FrameEvent.WavesUpdate (1 / 30),
        FrameEvent.CopyData 0, FrameEvent.Submit 2] =
      [FrameEvent.Acquire (nextFrameResourceIndex 3
        (BlendApp.fresh 3 1 0 1).mCurrFrameResourceIndex)] ++
      (match (UpdateWaves.disturb (sampleWaves 1 1) sampleDraws 0 (1 / 4)).2 with
        | some (i, j, r) => [FrameEvent.Disturb i j r]
        | none => []) ++
      [FrameEvent.WavesUpdate (1 / 30)] ++
      (List.range (sampleWaves 1 1).VertexCount).map FrameEvent.CopyData ++
      [FrameEvent.Submit (((BlendApp.fresh 3 1 0 1).mCurrentFence + 1) % UINT64_MOD)] ∧
    (BlendApp.mk [FrameResource.ctor 1,
        ⟨2, ⟨[some (UpdateWaves.vertex (sampleWaves 1 1) 0)]⟩⟩,
        FrameResource.ctor 1] 1 2).mCurrFrameResourceIndex =
      nextFrameResourceIndex 3 (BlendApp.fresh 3 1 0 1).mCurrFrameResourceIndex ∧
    List.findIdx FrameEvent.isAcquire
        [FrameEvent.Acquire 1, FrameEvent.Disturb 4 4 (1 / 5), FrameEvent.WavesUpdate (1 / 30),
          FrameEvent.CopyData 0, FrameEvent.Submit 2] <
      List.findIdx FrameEvent.isWavesUpdate
        [FrameEvent.Acquire 1, FrameEvent.Disturb 4 4 (1 / 5), FrameEvent.WavesUpdate (1 / 30),
          FrameEvent.CopyData 0, FrameEvent.Submit 2] :=
  tick_ordering 3 (BlendApp.fresh 3 1 0 1) ⟨1, 1⟩ (sampleWaves 1 1) sampleDraws 0 (1 / 4)
    (1 / 30)
    ⟨[FrameResource.ctor 1, ⟨2, ⟨[some (UpdateWaves.vertex (sampleWaves 1 1) 0)]⟩⟩,
      FrameResource.ctor 1], 1, 2⟩
    (1 / 4)
    [FrameEvent.Acquire 1, FrameEvent.Disturb 4 4 (1 / 5), FrameEvent.WavesUpdate (1 / 30),
      FrameEvent.CopyData 0, FrameEvent.Submit 2]
    (by
      have hd : UpdateWaves.disturb (sampleWaves 1 1) sampleDraws 0 (1 / 4) =
          (1 / 4, some (4, 4, 1 / 5)) := by
        norm_num [UpdateWaves.disturb, sampleDraws]
      have hvc : (sampleWaves 1 1).VertexCount = 1 := rfl
      simp only [one_div] at hd
      simp [BlendApp.frame, BlendApp.Update, BlendApp.Draw, BlendApp.fresh, BuildFrameResource,
        BuildFrameResource.loop, FrameResource.ctor, UploadBuffer.create,
        nextFrameResourceIndex, waitCondition, BlendApp.UpdateWaves, UpdateWaves.loop,
        UploadBuffer.CopyData, UpdateWaves.events, hd, hvc, UINT64_MOD])

/-! ### Claims about the configuration of the wave simulator -/

/-- The rational test of the Courant bound agrees with the bound over the reals. -/
theorem courant_iff (cfg : WavesConfig) :
    cfg.courant = true ↔
      ((cfg.speed * cfg.dt / cfg.dx : ℚ) : ℝ) ≤ 1 / Real.sqrt 2 := by
  have hs0 : (0 : ℝ) < Real.sqrt 2 := Real.sqrt_pos.2 (by norm_num)
  have hs2 : Real.sqrt 2 * Real.sqrt 2 = 2 := Real.mul_self_sqrt (by norm_num)
  unfold WavesConfig.courant
  rw [decide_eq_true_iff, le_div_iff₀ hs0]
  generalize cfg.speed * cfg.dt / cfg.dx = q
  constructor
  · rintro (h | h)
    · have hq : (q : ℝ) ≤ 0 := by exact_mod_cast h
      nlinarith
    · have hq : ((q ^ 2 : ℚ) : ℝ) ≤ ((1 / 2 : ℚ) : ℝ) := Rat.cast_le.2 h
      push_cast at hq
      by_contra hlt
      push_neg at hlt
      by_cases hpos : 0 < (q : ℝ)
      · nlinarith [mul_pos hpos hs0]
      · nlinarith
  · intro h
    by_cases hpos : q ≤ 0
    · exact Or.inl hpos
    · right
      push_neg at hpos
      have hq0 : (0 : ℝ) < q := by exact_mod_cast hpos
      have hq : (q : ℝ) ^ 2 ≤ 1 / 2 := by
        have h1 : (q : ℝ) * Real.sqrt 2 * ((q : ℝ) * Real.sqrt 2) ≤ 1 * 1 :=
          mul_le_mul h h (by positivity) (by norm_num)
        nlinarith
      have hq2 : ((q ^ 2 : ℚ) : ℝ) ≤ ((1 / 2 : ℚ) : ℝ) := by
        push_cast
        exact hq
      exact Rat.cast_le.1 hq2

/-- C12 (valid initial configuration).  The application constructs the
simulator with `rows = cols = 128`, `dx = 1.0`, `dt = 0.03`, `c = 4.0`,
`damp = 0.2`.  These values satisfy both construction requirements of the
specification: `rows, cols ≥ 5`, and the Courant bound `c·dt/dx ≤ 1/√2`, since
`(c·dt/dx)^2 = 0.0144 ≤ 1/2`; so the specified `initialize` succeeds on them. -/
theorem valid_initial_configuration :
    BuildWavesGeometry.wavesArgs =
      { rows := 128, cols := 128, dx := 1, dt := 3 / 100, speed := 4, damping := 1 / 5 } ∧
    5 ≤ BuildWavesGeometry.wavesArgs.rows ∧ 5 ≤ BuildWavesGeometry.wavesArgs.cols ∧
    (BuildWavesGeometry.wavesArgs.speed * BuildWavesGeometry.wavesArgs.dt /
      BuildWavesGeometry.wavesArgs.dx) ^ 2 = 144 / 10000 ∧
    (BuildWavesGeometry.wavesArgs.speed * BuildWavesGeometry.wavesArgs.dt /
      BuildWavesGeometry.wavesArgs.dx) ^ 2 ≤ 1 / 2 ∧
    ((BuildWavesGeometry.wavesArgs.speed * BuildWavesGeometry.wavesArgs.dt /
      BuildWavesGeometry.wavesArgs.dx : ℚ) : ℝ) ≤ 1 / Real.sqrt 2 ∧
    BuildWavesGeometry.wavesArgs.initialize = Except.ok () := by
  have hsq : (BuildWavesGeometry.wavesArgs.speed * BuildWavesGeometry.wavesArgs.dt /
      BuildWavesGeometry.wavesArgs.dx) ^ 2 = 144 / 10000 := by
    norm_num [BuildWavesGeometry.wavesArgs]
  have hc : BuildWavesGeometry.wavesArgs.courant = true := by
    unfold WavesConfig.courant
    rw [decide_eq_true_iff, hsq]
    right
    norm_num
  refine ⟨rfl, by decide, by decide, hsq, by rw [hsq]; norm_num, (courant_iff _).1 hc, ?_⟩
  unfold WavesConfig.initialize
  rw [hc]
  simp [BuildWavesGeometry.wavesArgs]

/-! ### Claims about the scene tables -/

set_option maxRecDepth 100000

/-- Every `UpdateAnimate` call keeps the index or steps it to the next one
modulo 60. -/
theorem UpdateAnimate_step (s : AnimateState) (TotalTime : ℚ) :
    (BlendApp.UpdateAnimate s TotalTime).AnimateIdx = s.AnimateIdx ∨
    (BlendApp.UpdateAnimate s TotalTime).AnimateIdx = (s.AnimateIdx + 1) % 60 := by
  unfold BlendApp.UpdateAnimate
  split_ifs
  · exact Or.inr rfl
  · exact Or.inl rfl

theorem UpdateAnimate_lt (s : AnimateState) (TotalTime : ℚ) (h : s.AnimateIdx < 60) :
    (BlendApp.UpdateAnimate s TotalTime).AnimateIdx < 60 := by
  rcases UpdateAnimate_step s TotalTime with h1 | h1 <;> rw [h1]
  · exact h
  · exact Nat.mod_lt _ (by decide)

theorem animateRun_lt (times : List ℚ) :
    ∀ s : AnimateState, s.AnimateIdx < 60 → (animateRun s times).AnimateIdx < 60 := by
  induction times with
  | nil => intro s h; exact h
  | cons T rest ih =>
    intro s h
    exact ih _ (UpdateAnimate_lt s T h)

/-- C15 (the animation frame index stays in bounds).  `BuildRenderItems` fills
the alpha-tested layer with exactly 60 items, the cylinders 1 to 60 in order.
Every `UpdateAnimate` call leaves `AnimateIdx` alone or steps it to
`(AnimateIdx + 1) mod 60`.  Hence, for every sequence of `UpdateAnimate` calls
that starts with `AnimateIdx` in `[0, 60)`, `AnimateIdx` is still in `[0, 60)`
afterwards and the access `items[AnimateIdx]` in `Draw` falls inside the
alpha-tested layer, on cylinder item `AnimateIdx + 1`. -/
theorem animation_index_in_bounds (s0 : AnimateState) (h0 : s0.AnimateIdx < 60)
    (times : List ℚ) :
    BuildRenderItems.AlphaTested.length = 60 ∧
    BuildRenderItems.AlphaTested = (List.range 60).map (fun i =>
      { ObjCBIndex := 1 + (i + 1), Mat := MaterialName.bolt (i + 1),
        Geo := GeometryName.cylinderGeo (i + 1) }) ∧
    (∀ (s : AnimateState) (TotalTime : ℚ),
      (BlendApp.UpdateAnimate s TotalTime).AnimateIdx = s.AnimateIdx ∨
      (BlendApp.UpdateAnimate s TotalTime).AnimateIdx = (s.AnimateIdx + 1) % 60) ∧
    (animateRun s0 times).AnimateIdx < 60 ∧
    (animateRun s0 times).AnimateIdx < BuildRenderItems.AlphaTested.length ∧
    Draw.animateItem BuildRenderItems (animateRun s0 times) =
      some { ObjCBIndex := 1 + ((animateRun s0 times).AnimateIdx + 1),
             Mat := MaterialName.bolt ((animateRun s0 times).AnimateIdx + 1),
             Geo := GeometryName.cylinderGeo ((animateRun s0 times).AnimateIdx + 1) } := by
  have hlen : BuildRenderItems.AlphaTested.length = 60 := by decide
  have hitems : BuildRenderItems.AlphaTested = (List.range 60).map (fun i =>
      ({ ObjCBIndex := 1 + (i + 1), Mat := MaterialName.bolt (i + 1),
         Geo := GeometryName.cylinderGeo (i + 1) } : RenderItem)) := by decide
  have hlt := animateRun_lt times s0 h0
  refine ⟨hlen, hitems, UpdateAnimate_step, hlt, by rw [hlen]; exact hlt, ?_⟩
  unfold Draw.animateItem
  rw [hitems, List.getElem?_map, List.getElem?_range hlt]
  rfl

/-- Witness for C15: from index 59, two calls a sixtieth of a second apart and
one call too early to step; the index ends at 1. -/
theorem animation_index_in_bounds_witness :
    BuildRenderItems.AlphaTested.length = 60 ∧
    BuildRenderItems.AlphaTested = (List.range 60).map (fun i =>
      { ObjCBIndex := 1 + (i + 1), Mat := MaterialName.bolt (i + 1),
        Geo := GeometryName.cylinderGeo (i + 1) }) ∧
    (∀ (s : AnimateState) (TotalTime : ℚ),
      (BlendApp.UpdateAnimate s TotalTime).AnimateIdx = s.AnimateIdx ∨
      (BlendApp.UpdateAnimate s TotalTime).AnimateIdx = (s.AnimateIdx + 1) % 60) ∧
    (animateRun ⟨59, 0⟩ [1 / 60, 1 / 50, 1 / 30]).AnimateIdx < 60 ∧
    (animateRun ⟨59, 0⟩ [1 / 60, 1 / 50, 1 / 30]).AnimateIdx <
      BuildRenderItems.AlphaTested.length ∧
    Draw.animateItem BuildRenderItems (animateRun ⟨59, 0⟩ [1 / 60, 1 / 50, 1 / 30]) =
      some { ObjCBIndex := 1 + ((animateRun ⟨59, 0⟩ [1 / 60, 1 / 50, 1 / 30]).AnimateIdx + 1),
             Mat := MaterialName.bolt
               ((animateRun ⟨59, 0⟩ [1 / 60, 1 / 50, 1 / 30]).AnimateIdx + 1),
             Geo := GeometryName.cylinderGeo
               ((animateRun ⟨59, 0⟩ [1 / 60, 1 / 50, 1 / 30]).AnimateIdx + 1) } :=
  animation_index_in_bounds ⟨59, 0⟩ (by decide) [1 / 60, 1 / 50, 1 / 30]

/-- C16 (material-to-descriptor consistency).  `BuildMaterials` builds 62
materials with pairwise different names and pairwise different
`DiffuseSrvHeapIndex` values, all below the heap size 62 of
`BuildDescriptorHeaps`; that method creates one view per heap offset; and the
view at the offset `DiffuseSrvHeapIndex` of each material is the view of that
material's texture: grass at 0, water at 1, and bolt `k` at `k + 1` for every
`k` from 1 to 60. -/
theorem material_descriptor_consistency :
    BuildMaterials.length = 62 ∧
    (BuildMaterials.map (fun m => m.Name)).Nodup ∧
    (BuildMaterials.map (fun m => m.DiffuseSrvHeapIndex)).Nodup ∧
    BuildDescriptorHeaps.NumDescriptors = 62 ∧
    (∀ m ∈ BuildMaterials, m.DiffuseSrvHeapIndex < BuildDescriptorHeaps.NumDescriptors) ∧
    (BuildDescriptorHeaps.views.map (fun v => v.1)).Nodup ∧
    (∀ m ∈ BuildMaterials,
      (m.DiffuseSrvHeapIndex, textureOf m.Name) ∈ BuildDescriptorHeaps.views) ∧
    (findMaterial BuildMaterials MaterialName.grass).map (fun m => m.DiffuseSrvHeapIndex)
      = some 0 ∧
    (0, TextureName.grassTex) ∈ BuildDescriptorHeaps.views ∧
    (findMaterial BuildMaterials MaterialName.water).map (fun m => m.DiffuseSrvHeapIndex)
      = some 1 ∧
    (1, TextureName.waterTex) ∈ BuildDescriptorHeaps.views ∧
    (∀ k, 1 ≤ k → k ≤ 60 →
      (findMaterial BuildMaterials (MaterialName.bolt k)).map
        (fun m => m.DiffuseSrvHeapIndex) = some (k + 1) ∧
      (k + 1, TextureName.boltTex k) ∈ BuildDescriptorHeaps.views) := by
  have hbolt : ∀ k, 1 ≤ k → k < 61 →
      (findMaterial BuildMaterials (MaterialName.bolt k)).map
        (fun m => m.DiffuseSrvHeapIndex) = some (k + 1) ∧
      (k + 1, TextureName.boltTex k) ∈ BuildDescriptorHeaps.views := by decide
  refine ⟨by decide, by decide, by decide, rfl, by decide, by decide, by decide,
    by decide, by decide, by decide, by decide, ?_⟩
  intro k h1 h2
  exact hbolt k h1 (by omega)

/-! ### Claims about the index buffer of the wave grid -/

/-- One store inside the vector. -/
theorem IndexFill_store_lt (s : IndexFill) (pos value : Nat) (h : pos < s.indices.length) :
    s.store pos value =
      some { indices := s.indices.set pos (value % 65536), k := s.k,
             written := s.written ++ [pos] } := by
  simp [IndexFill.store, h]

/-- The six stores of one quad, when they fit into the vector. -/
theorem quad_eq (n i j : Nat) (s : IndexFill) (hcap : s.k + 6 ≤ s.indices.length) :
    BuildWavesGeometry.quad n i j s =
      some { indices :=
               (((((s.indices.set s.k ((i * n + j) % 65536)).set (s.k + 1)
                 ((i * n + j + 1) % 65536)).set (s.k + 2)
                 (((i + 1) * n + j) % 65536)).set (s.k + 3)
                 (((i + 1) * n + j) % 65536)).set (s.k + 4)
                 ((i * n + j + 1) % 65536)).set (s.k + 5)
                 (((i + 1) * n + j + 1) % 65536)
             k := s.k + 6
             written := s.written ++ [s.k, s.k + 1, s.k + 2, s.k + 3, s.k + 4, s.k + 5] } := by
  unfold BuildWavesGeometry.quad
  rw [IndexFill_store_lt _ _ _ (by omega)]
  simp only [Option.some_bind]
  rw [IndexFill_store_lt _ _ _ (by simp only [List.length_set]; omega)]
  simp only [Option.some_bind]
  rw [IndexFill_store_lt _ _ _ (by simp only [List.length_set]; omega)]
  simp only [Option.some_bind]
  rw [IndexFill_store_lt _ _ _ (by simp only [List.length_set]; omega)]
  simp only [Option.some_bind]
  rw [IndexFill_store_lt _ _ _ (by simp only [List.length_set]; omega)]
  simp only [Option.some_bind]
  rw [IndexFill_store_lt _ _ _ (by simp only [List.length_set]; omega)]
  simp only [Option.some_bind, List.append_assoc, List.singleton_append, List.cons_append,
    List.nil_append]

/-- One quad extends the filled part of the vector by one quad. -/
theorem quad_spec (n L i j q : Nat) (s : IndexFill) (hqi : q / (n - 1) = i)
    (hqj : q % (n - 1) = j) (hinv : IndexFilled n L q s) (hcap : 6 * q + 6 ≤ L) :
    ∃ s1, BuildWavesGeometry.quad n i j s = some s1 ∧ IndexFilled n L (q + 1) s1 := by
  obtain ⟨hk, hlen, hwr, hval⟩ := hinv
  refine ⟨_, quad_eq n i j s (by omega), ?_, ?_, ?_, ?_⟩
  · simp only [hk]; omega
  · simp only [List.length_set]; exact hlen
  · simp only [hwr, hk]
    have h6 : 6 * (q + 1) = 6 * q + 1 + 1 + 1 + 1 + 1 + 1 := by omega
    rw [h6]
    simp only [List.range_succ, List.append_assoc, List.singleton_append, List.cons_append,
      List.nil_append]
  · intro q1 t hq1 ht
    simp only [hk]
    by_cases hlt : q1 < q
    · rw [List.getElem?_set_ne (by omega), List.getElem?_set_ne (by omega),
        List.getElem?_set_ne (by omega), List.getElem?_set_ne (by omega),
        List.getElem?_set_ne (by omega), List.getElem?_set_ne (by omega)]
      exact hval q1 t hlt ht
    · have hq1q : q1 = q := by omega
      subst hq1q
      rw [hqi, hqj]
      have hL : 6 * q1 + 5 < s.indices.length := by omega
      interval_cases t <;>
        simp [List.getElem?_set, quadValue] <;> omega

/-- The inner loop from column `j` with `left` quads to go extends the filled
part of the vector by `left` quads. -/
theorem inner_spec (n L i : Nat) :
    ∀ (left j : Nat) (s : IndexFill), j + left = n - 1 →
      IndexFilled n L ((n - 1) * i + j) s → 6 * ((n - 1) * i + (n - 1)) ≤ L →
      ∃ s1, BuildWavesGeometry.inner n i left j s = some s1 ∧
        IndexFilled n L ((n - 1) * i + j + left) s1 := by
  intro left
  induction left with
  | zero =>
    intro j s _ hinv _
    exact ⟨s, rfl, hinv⟩
  | succ left ih =>
    intro j s hj hinv hcap
    have hd : 0 < n - 1 := by omega
    have hqi : ((n - 1) * i + j) / (n - 1) = i := by
      rw [Nat.mul_add_div hd, Nat.div_eq_of_lt (by omega), Nat.add_zero]
    have hqj : ((n - 1) * i + j) % (n - 1) = j := by
      rw [Nat.mul_add_mod, Nat.mod_eq_of_lt (by omega)]
    obtain ⟨s1, hq, hinv1⟩ := quad_spec n L i j _ s hqi hqj hinv (by omega)
    obtain ⟨s2, hin, hinv2⟩ := ih (j + 1) s1 (by omega) hinv1 hcap
    refine ⟨s2, ?_, ?_⟩
    · rw [BuildWavesGeometry.inner, hq]
      exact hin
    · have he : (n - 1) * i + j + (left + 1) = (n - 1) * i + (j + 1) + left := by omega
      rw [he]
      exact hinv2

/-- The outer loop from row `i` with `left` rows to go extends the filled part
of the vector by `left` rows of quads. -/
theorem outer_spec (m n L : Nat) :
    ∀ (left i : Nat) (s : IndexFill), i + left = m - 1 →
      IndexFilled n L ((n - 1) * i) s → 6 * ((n - 1) * (m - 1)) ≤ L →
      ∃ s1, BuildWavesGeometry.outer n left i s = some s1 ∧
        IndexFilled n L ((n - 1) * (i + left)) s1 := by
  intro left
  induction left with
  | zero =>
    intro i s _ hinv _
    exact ⟨s, rfl, hinv⟩
  | succ left ih =>
    intro i s hi hinv hcap
    have hrow : (n - 1) * (i + 1) ≤ (n - 1) * (m - 1) := Nat.mul_le_mul_left _ (by omega)
    have hsucc : (n - 1) * (i + 1) = (n - 1) * i + (n - 1) := Nat.mul_succ _ _
    obtain ⟨s1, hin, hinv1⟩ := inner_spec n L i (n - 1) 0 s (by omega)
      (by simpa using hinv) (by omega)
    have hinv1b : IndexFilled n L ((n - 1) * (i + 1)) s1 := by
      rw [hsucc]
      simpa using hinv1
    obtain ⟨s2, hout, hinv2⟩ := ih (i + 1) s1 (by omega) hinv1b hcap
    refine ⟨s2, ?_, ?_⟩
    · rw [BuildWavesGeometry.outer, hin]
      exact hout
    · have he : i + (left + 1) = i + 1 + left := by omega
      rw [he]
      exact hinv2

/-- Every value stored for a quad inside the grid is a vertex index of the grid. -/
theorem quadValue_lt (m n i j t : Nat) (hi : i < m - 1) (hj : j < n - 1) :
    quadValue n i j t < m * n := by
  have h1 : (i + 1) * n ≤ (m - 1) * n := Nat.mul_le_mul_right _ (by omega)
  have h2 : (i + 1) * n = i * n + n := Nat.succ_mul _ _
  have h3 : m * n = (m - 1) * n + n := by
    have hm : m = (m - 1) + 1 := by omega
    conv_lhs => rw [hm]
    exact Nat.succ_mul _ _
  unfold quadValue
  split <;> omega

/-- Every entry of the filled vector, by its position: entry `p` belongs to quad
`p / 6`, it holds that quad's value number `p % 6` without truncation, and the
value is a vertex index. -/
theorem IndexFilled_entry (m n L p : Nat) (s : IndexFill)
    (hinv : IndexFilled n L ((n - 1) * (m - 1)) s) (hv : m * n < 65535)
    (hp : p < 6 * ((n - 1) * (m - 1))) :
    (p / 6) / (n - 1) < m - 1 ∧ (p / 6) % (n - 1) < n - 1 ∧
    s.indices[p]? =
      some (quadValue n ((p / 6) / (n - 1)) ((p / 6) % (n - 1)) (p % 6)) ∧
    quadValue n ((p / 6) / (n - 1)) ((p / 6) % (n - 1)) (p % 6) < m * n := by
  obtain ⟨-, -, -, hval⟩ := hinv
  have hq : p / 6 < (n - 1) * (m - 1) := by omega
  have hd : 0 < n - 1 := by
    rcases Nat.eq_zero_or_pos (n - 1) with h0 | h0
    · rw [h0, Nat.zero_mul] at hq
      omega
    · exact h0
  have hi : (p / 6) / (n - 1) < m - 1 := by
    rw [Nat.div_lt_iff_lt_mul hd, Nat.mul_comm]
    exact hq
  have hj : (p / 6) % (n - 1) < n - 1 := Nat.mod_lt _ hd
  have hlt := quadValue_lt m n _ _ (p % 6) hi hj
  have h := hval (p / 6) (p % 6) hq (Nat.mod_lt _ (by decide))
  rw [Nat.div_add_mod, Nat.mod_eq_of_lt (by omega)] at h
  exact ⟨hi, hj, h, hlt⟩

/-- The index part of `BuildWavesGeometry` returns and leaves the vector filled,
for a grid that passes the assert and has the triangle count of a grid. -/
theorem indices_spec (m n : Nat) (hv : m * n < 65535) :
    ∃ s, BuildWavesGeometry.indices m n (2 * (m - 1) * (n - 1)) (m * n) = some s ∧
      IndexFilled n (6 * ((n - 1) * (m - 1))) ((n - 1) * (m - 1)) s := by
  have hT : 3 * (2 * (m - 1) * (n - 1)) = 6 * ((n - 1) * (m - 1)) := by
    rw [Nat.mul_comm (n - 1) (m - 1), Nat.mul_assoc 2, ← Nat.mul_assoc 3 2]
  obtain ⟨s, hout, hinv⟩ := outer_spec m n (6 * ((n - 1) * (m - 1))) (m - 1) 0
    { indices := List.replicate (3 * (2 * (m - 1) * (n - 1))) 0, k := 0, written := [] }
    (by omega)
    ⟨by simp, by simp [hT], by simp, by intro q1 t hq1; omega⟩ (le_refl _)
  refine ⟨s, ?_, by simpa using hinv⟩
  unfold BuildWavesGeometry.indices
  simp only [hv, if_true]
  exact hout


/-- C14 as stated fails: a grid of 2 rows and 65536 columns has `m, n ≥ 1`, yet
the assert before the loop rejects it, and the 16-bit stores of its first quad
would be 0, 1, 0, 0, 1, 1: the first triple repeats vertex 0. -/
theorem wave_index_buffer_as_stated_fails :
    BuildWavesGeometry.indices 2 65536 (2 * (2 - 1) * (65536 - 1)) (2 * 65536) = none ∧
    (BuildWavesGeometry.quad 65536 0 0 ⟨List.replicate 6 0, 0, []⟩).map
      (fun s => s.indices) = some [0, 1, 0, 0, 1, 1] := by
  constructor <;> decide

/-- C14, amended (the wave index buffer is well-formed).  For every grid with
`m ≥ 1` rows and `n ≥ 1` columns that passes the assert of
`BuildWavesGeometry` (`m * n < 0xffff` vertices), with
`TriangleCount = 2 * (m - 1) * (n - 1)`: the loop returns and writes exactly the
positions `0, ..., 6 * (m - 1) * (n - 1) - 1`, each once, which is the whole
allocated length `3 * TriangleCount`; every entry is a vertex index below
`m * n`; the six entries of the quad at row `i`, column `j` are the six values
of the loop body, untruncated; and each consecutive triple consists of three
different indices. -/
theorem wave_index_buffer_well_formed (m n : Nat) (hm : 1 ≤ m) (hn : 1 ≤ n)
    (hv : m * n < 65535) :
    ∃ s, BuildWavesGeometry.indices m n (2 * (m - 1) * (n - 1)) (m * n) = some s ∧
      s.written = List.range (6 * (m - 1) * (n - 1)) ∧
      (∀ p, p < 6 * (m - 1) * (n - 1) → s.written.count p = 1) ∧
      (∀ p, 6 * (m - 1) * (n - 1) ≤ p → s.written.count p = 0) ∧
      s.indices.length = 3 * (2 * (m - 1) * (n - 1)) ∧
      s.indices.length = 6 * (m - 1) * (n - 1) ∧
      (∀ v ∈ s.indices, v < m * n) ∧
      (∀ i j t, i < m - 1 → j < n - 1 → t < 6 →
        s.indices[6 * ((n - 1) * i + j) + t]? = some (quadValue n i j t)) ∧
      (∀ t, t < 2 * (m - 1) * (n - 1) →
        ∃ a b c, s.indices[3 * t]? = some a ∧ s.indices[3 * t + 1]? = some b ∧
          s.indices[3 * t + 2]? = some c ∧ a ≠ b ∧ b ≠ c ∧ a ≠ c) := by
  obtain ⟨s, hs, hinv⟩ := indices_spec m n hv
  have hQ : 6 * (m - 1) * (n - 1) = 6 * ((n - 1) * (m - 1)) := by
    rw [Nat.mul_comm (n - 1) (m - 1), Nat.mul_assoc]
  have hT : 2 * (m - 1) * (n - 1) = 2 * ((n - 1) * (m - 1)) := by
    rw [Nat.mul_comm (n - 1) (m - 1), Nat.mul_assoc]
  have hwr : s.written = List.range (6 * (m - 1) * (n - 1)) := by
    rw [hQ]; exact hinv.2.2.1
  have hlen : s.indices.length = 6 * (m - 1) * (n - 1) := by
    rw [hQ]; exact hinv.2.1
  refine ⟨s, hs, hwr, ?_, ?_, ?_, hlen, ?_, ?_, ?_⟩
  · intro p hp
    rw [hwr]
    exact List.count_eq_one_of_mem (List.nodup_range _) (List.mem_range.2 hp)
  · intro p hp
    rw [hwr]
    exact List.count_eq_zero_of_not_mem (by simp only [List.mem_range]; omega)
  · rw [hlen, hT, hQ]
    omega
  · intro v hmem
    obtain ⟨p, hp⟩ := List.mem_iff_getElem?.1 hmem
    have hpl : p < 6 * ((n - 1) * (m - 1)) := by
      by_contra hge
      rw [List.getElem?_eq_none (by omega)] at hp
      cases hp
    obtain ⟨-, -, he, hlt⟩ := IndexFilled_entry m n _ p s hinv hv hpl
    rw [he] at hp
    cases hp
    exact hlt
  · intro i j t hi hj ht
    have hd : 0 < n - 1 := by omega
    have hsucc : (n - 1) * (i + 1) = (n - 1) * i + (n - 1) := Nat.mul_succ _ _
    have hrow : (n - 1) * (i + 1) ≤ (n - 1) * (m - 1) := Nat.mul_le_mul_left _ (by omega)
    obtain ⟨-, -, he, -⟩ := IndexFilled_entry m n _ (6 * ((n - 1) * i + j) + t) s hinv hv
      (by omega)
    have h6 : (6 * ((n - 1) * i + j) + t) / 6 = (n - 1) * i + j := by omega
    have h6m : (6 * ((n - 1) * i + j) + t) % 6 = t := by omega
    have hqi : ((n - 1) * i + j) / (n - 1) = i := by
      rw [Nat.mul_add_div hd, Nat.div_eq_of_lt hj, Nat.add_zero]
    have hqj : ((n - 1) * i + j) % (n - 1) = j := by
      rw [Nat.mul_add_mod, Nat.mod_eq_of_lt hj]
    rw [h6, h6m, hqi, hqj] at he
    exact he
  · intro t ht
    rw [hT] at ht
    obtain ⟨hi, hj, he0, -⟩ := IndexFilled_entry m n _ (3 * t) s hinv hv (by omega)
    obtain ⟨-, -, he1, -⟩ := IndexFilled_entry m n _ (3 * t + 1) s hinv hv (by omega)
    obtain ⟨-, -, he2, -⟩ := IndexFilled_entry m n _ (3 * t + 2) s hinv hv (by omega)
    have hq1 : (3 * t + 1) / 6 = 3 * t / 6 := by omega
    have hq2 : (3 * t + 2) / 6 = 3 * t / 6 := by omega
    rw [hq1] at he1
    rw [hq2] at he2
    refine ⟨_, _, _, he0, he1, he2, ?_⟩
    have h2 : (3 * t / 6 / (n - 1) + 1) * n = 3 * t / 6 / (n - 1) * n + n := Nat.succ_mul _ _
    have hn2 : 2 ≤ n := by omega
    rcases Nat.mod_two_eq_zero_or_one t with hpar | hpar
    · have r0 : 3 * t % 6 = 0 := by omega
      have r1 : (3 * t + 1) % 6 = 1 := by omega
      have r2 : (3 * t + 2) % 6 = 2 := by omega
      rw [r0, r1, r2]
      simp only [quadValue]
      omega
    · have r0 : 3 * t % 6 = 3 := by omega
      have r1 : (3 * t + 1) % 6 = 4 := by omega
      have r2 : (3 * t + 2) % 6 = 5 := by omega
      rw [r0, r1, r2]
      simp only [quadValue]
      omega

/-- Witness for C14 (amended): the reference grid of 128 rows and 128 columns. -/
theorem wave_index_buffer_well_formed_witness :
    ∃ s, BuildWavesGeometry.indices 128 128 (2 * (128 - 1) * (128 - 1)) (128 * 128) = some s ∧
      s.written = List.range (6 * (128 - 1) * (128 - 1)) ∧
      (∀ p, p < 6 * (128 - 1) * (128 - 1) → s.written.count p = 1) ∧
      (∀ p, 6 * (128 - 1) * (128 - 1) ≤ p → s.written.count p = 0) ∧
      s.indices.length = 3 * (2 * (128 - 1) * (128 - 1)) ∧
      s.indices.length = 6 * (128 - 1) * (128 - 1) ∧
      (∀ v ∈ s.indices, v < 128 * 128) ∧
      (∀ i j t, i < 128 - 1 → j < 128 - 1 → t < 6 →
        s.indices[6 * ((128 - 1) * i + j) + t]? = some (quadValue 128 i j t)) ∧
      (∀ t, t < 2 * (128 - 1) * (128 - 1) →
        ∃ a b c, s.indices[3 * t]? = some a ∧ s.indices[3 * t + 1]? = some b ∧
          s.indices[3 * t + 2]? = some c ∧ a ≠ b ∧ b ≠ c ∧ a ≠ c) :=
  wave_index_buffer_well_formed 128 128 (by decide) (by decide) (by decide)

end LearnDX12
